import Mathlib

/-!
# Verification of the LinkedIn-hook evaluation pipeline orchestrator

Shallow embedding of the pipeline orchestrator of the repository:
`src/lib/services/progress-tracker.ts`, `src/lib/services/pipeline-service.ts`
and `src/lib/services/streaming-service.ts`, together with the thin helpers
they call in `src/lib/unified-llm-service.ts`.

Modelling conventions:
* JavaScript numbers are modelled as rationals (`ℚ`); `Math.round` on the
  non-negative values occurring here is `⌊q + 1/2⌋`.
* `lastReportedProgress` only ever receives integer values (the initial 0,
  results of `calculateProgress`, and the literal 99), so it is typed `ℤ`
  and `calculateProgress` returns `ℤ`.
* The JS `Map` keyed by model id is an insertion-ordered association list.
* JS object fields that are present on some construction sites and absent
  (`undefined`) on others are typed `Option`; the `||` fallbacks applied to
  possibly-falsy values are embedded explicitly.
* The external collaborators (Generator, Judge, blob upload) and the local
  deterministic scorer `evaluateHook` are parameters of the embedding; the
  pipeline never inspects their internals.
* The concurrent `Promise.all` fan-outs are embedded as in-order sequential
  folds: result assembly in the source is positional (`Promise.all`
  preserves index order), so the per-model records are independent of the
  interleaving of the worker tasks.
-/

/-- JS `Math.round` for the non-negative rationals that occur in this
program: round half away from zero, i.e. `⌊q + 1/2⌋`. -/
def jsRound (q : ℚ) : ℤ := ⌊q + 1/2⌋

/-- `Math.round(q * 10) / 10`, the one-decimal rounding used for scores. -/
def round10 (q : ℚ) : ℚ := (jsRound (q * 10) : ℚ) / 10

/-- Modify the element at index `i` of a list, if present
(embeds `xs[i].field = v` style in-place updates). -/
def modifyAt {α : Type} (l : List α) (i : Nat) (f : α → α) : List α :=
  match l, i with
  | [], _ => []
  | a :: t, 0 => f a :: t
  | a :: t, n + 1 => a :: modifyAt t n f

/-- JS `String.prototype.includes`: substring containment. -/
def strIncludes (s pat : String) : Bool := decide (pat.data <:+: s.data)

/-- JS truthiness of an optional string (`undefined` and `""` are falsy). -/
def jsTruthyStr (o : Option String) : Bool :=
  match o with
  | none => false
  | some s => s ≠ ""

/-- JS `a || b` for optional strings: take `a` unless it is absent or
empty. -/
def jsOrStr (a b : Option String) : Option String :=
  match a with
  | some s => if s = "" then b else some s
  | none => b

/-! ## Data model of the pipeline results (`pipeline-service.ts`,
`evaluation-service.ts`, `llm-judge.ts`) -/

/-- `EvaluationCriteria` in `evaluation-service.ts`. -/
structure EvaluationCriteria where
  englishLanguage : ℚ
  length : ℚ
  emotion : ℚ
  linkedinRelevance : ℚ
  readability : ℚ
  attentionGrabbing : ℚ
  bonusPoints : ℚ
deriving DecidableEq

/-- `HookEvaluation` in `evaluation-service.ts`, the output of the local
deterministic scorer `evaluateHook`.  The scorer itself is passed to the
pipeline as a parameter. -/
structure HookEvaluation where
  hook : String
  wordCount : Nat
  criteria : EvaluationCriteria
  totalScore : ℚ
  explanation : String
deriving DecidableEq

/-- One entry of `judgeResult.criteriaResults` (`llm-judge.ts`); the
pipeline reads the `criterion` and `score` fields. -/
structure CriterionResult where
  criterion : String
  score : ℚ
deriving DecidableEq

/-- `judgeResult.metaAnalysis` (`llm-judge.ts`). -/
structure MetaAnalysis where
  strengths : List String
  weaknesses : List String
  recommendations : List String
deriving DecidableEq

/-- The Judge's verdict for one hook, as consumed by
`PipelineService.evaluateHooks`. -/
structure JudgeResult where
  overallScore : ℚ
  criteriaResults : List CriterionResult
  metaAnalysis : MetaAnalysis
  judgeConfidence : ℚ
deriving DecidableEq

/-- The per-hook object assembled in `PipelineService.evaluateHooks`
(both its success branch and its catch branch build this shape). -/
structure HookEvalEntry where
  hook : String
  judgeScore : ℚ
  criteriaBreakdown : List CriterionResult
  strengths : List String
  weaknesses : List String
  recommendations : List String
  confidence : ℚ
  basicEvaluation : HookEvaluation
deriving DecidableEq

/-- The `judgeAnalysis` sub-object of a formatted hook record. -/
structure JudgeAnalysis where
  criteriaBreakdown : List CriterionResult
  strengths : List String
  weaknesses : List String
  recommendations : List String
  confidence : ℚ
deriving DecidableEq

/-- One formatted hook in `PipelineService.formatModelResult`. -/
structure HookRecord where
  hook : String
  wordCount : Nat
  totalScore : ℚ
  basicScore : ℚ
  explanation : String
  judgeAnalysis : JudgeAnalysis
  semanticScore : ℚ
  engagementPrediction : ℚ
  confidenceLevel : ℚ
  recommendations : List String
deriving DecidableEq

/-- The `judgeMetadata` sub-object of a formatted model record. -/
structure JudgeMetadata where
  evaluationMethod : String
  judgeModel : String
  backupModel : String
  avgConfidence : ℚ
deriving DecidableEq

/-- One per-model record of the pipeline.  The success path
(`formatModelResult`) populates every field with `error = none`; the
per-worker catch branch in `processModels` builds the smaller record
`{model, hooks: [], averageScore: 0, error, strengthsAndWeaknesses}`, so
the fields it does not set are typed `Option` and are `none` there. -/
structure ModelRecord where
  model : String
  provider : Option String
  hooks : List HookRecord
  averageScore : ℚ
  basicAverageScore : Option ℚ
  strengths : List String
  weaknesses : List String
  executionTime : Option ℚ
  tokensUsed : Option ℚ
  judgeMetadata : Option JudgeMetadata
  error : Option String
deriving DecidableEq

/-- One `{modelId, score}` ranking entry in `compileResults`. -/
structure ScoreEntry where
  modelId : String
  score : ℚ
deriving DecidableEq

/-- The `comparison` part of the terminal payload. -/
structure Comparison where
  winner : Option String
  scoreDifference : ℚ
  confidenceLevel : ℚ
  modelRankings : List ScoreEntry
deriving DecidableEq

/-- The `analytics` part of the terminal payload. -/
structure Analytics where
  executionTime : ℚ
  modelsAnalyzed : Nat
  modelsFailed : Nat
deriving DecidableEq

/-- The `performanceSummary` part of the insights. -/
structure PerformanceSummary where
  highestScore : ℚ
  lowestScore : ℚ
  averageScore : ℚ
  consistencyScore : ℚ
  evaluationMethod : String
  judgeModel : String
deriving DecidableEq

/-- The `insights` part of the terminal payload. -/
structure Insights where
  keyFindings : List String
  recommendations : List String
  performanceSummary : PerformanceSummary
deriving DecidableEq

/-- `PipelineResult` in `pipeline-service.ts`. -/
structure PipelineResult where
  results : List (String × ModelRecord)
  comparison : Comparison
  analytics : Analytics
  insights : Insights
deriving DecidableEq

/-! ## Stream events (`streaming-service.ts`) -/

/-- The payload of the `data` field of a stream event.  The source sends
`{ url: blob.url }` on completion; the `resultData` constructor is the
payload shape the specification describes (`data: PipelineResult`) and
exists so the two can be compared. -/
inductive StreamData where
  | urlData (url : String)
  | resultData (r : PipelineResult)
deriving DecidableEq

/-- One SSE event, `StreamEvent` in `streaming-service.ts`. -/
structure StreamEvent where
  type : String
  step : String
  modelId : Option String := none
  progress : Option ℤ := none
  data : Option StreamData := none
  error : Option String := none
deriving DecidableEq

/-- `StreamingService.sendProgress`. -/
def sendProgress (step : String) (progress : ℤ)
    (modelId : Option String) : StreamEvent :=
  { type := "progress", step := step, progress := some progress,
    modelId := modelId }

/-- `StreamingService.sendError`. -/
def sendError (step : String) (error : String)
    (modelId : Option String) : StreamEvent :=
  { type := "error", step := step, error := some error, modelId := modelId }

/-- `StreamingService.sendComplete`. -/
def sendComplete (data : StreamData) : StreamEvent :=
  { type := "complete", step := "Analysis complete! Results ready.",
    progress := some 100, data := some data }

/-! ## Progress tracker state (`progress-tracker.ts`) -/

/-- `ProgressStep` in `progress-tracker.ts`. -/
structure ProgressStep where
  name : String
  weight : ℚ
  completed : Bool
deriving DecidableEq

/-- `ProgressPhase` in `progress-tracker.ts`. -/
structure ProgressPhase where
  name : String
  weight : ℚ
  steps : List ProgressStep
deriving DecidableEq

/-- `ModelProgress` in `progress-tracker.ts`. -/
structure ModelProgress where
  modelId : String
  hooksGenerated : Bool
  hooksEvaluated : Bool
  completed : Bool
deriving DecidableEq

/-- The mutable fields of a `ProgressTracker` instance. -/
structure TrackerState where
  phases : List ProgressPhase
  currentPhase : Nat
  modelProgress : List (String × ModelProgress)
  lastReportedProgress : ℤ
deriving DecidableEq

/-- `ProgressTracker.initializePhases`. -/
def initializePhases (analysisOptions : List String) : List ProgressPhase :=
  [ { name := "Initialization", weight := 5,
      steps := [{ name := "Pipeline setup", weight := 100, completed := false }] },
    { name := "Model Processing", weight := 70,
      steps := [{ name := "Hook generation", weight := 40, completed := false },
                { name := "Hook evaluation", weight := 60, completed := false }] },
    { name := "Analysis", weight := 20,
      steps := (analysisOptions.map (fun option =>
          { name := option ++ " analysis",
            weight := 100 / ((analysisOptions.length : ℚ) + 1),
            completed := false })) ++
        [{ name := "Comparative analysis",
           weight := 100 / ((analysisOptions.length : ℚ) + 1),
           completed := false }] },
    { name := "Finalization", weight := 5,
      steps := [{ name := "Results compilation", weight := 100, completed := false }] } ]

/-- `ProgressTracker.initializeModelProgress`. -/
def initializeModelProgress (selectedModels : List String) :
    List (String × ModelProgress) :=
  selectedModels.map (fun modelId =>
    (modelId, { modelId := modelId, hooksGenerated := false,
                hooksEvaluated := false, completed := false }))

/-- The `ProgressTracker` constructor. -/
def initTracker (selectedModels analysisOptions : List String) : TrackerState :=
  { phases := initializePhases analysisOptions,
    currentPhase := 0,
    modelProgress := initializeModelProgress selectedModels,
    lastReportedProgress := 0 }

/-- The per-worker score used by `calculateModelProcessingProgress`. -/
def workerScore (m : ModelProgress) : ℚ :=
  if m.completed then 100
  else if m.hooksEvaluated then 90
  else if m.hooksGenerated then 40
  else 0

/-- `ProgressTracker.calculateModelProcessingProgress`. -/
def calculateModelProcessingProgress (s : TrackerState) : ℚ :=
  let models := s.modelProgress.map Prod.snd
  if models.length = 0 then 0
  else (models.map workerScore).sum / (models.length : ℚ)

/-- `ProgressTracker.calculatePhaseProgress`. -/
def calculatePhaseProgress (s : TrackerState) (phase : ProgressPhase) : ℚ :=
  if phase.name = "Model Processing" then
    calculateModelProcessingProgress s
  else
    let totalWeight := (phase.steps.map ProgressStep.weight).sum
    let completedWeight :=
      ((phase.steps.filter ProgressStep.completed).map ProgressStep.weight).sum
    if totalWeight > 0 then completedWeight / totalWeight * 100 else 0

/-- The loop body of `ProgressTracker.calculateProgress`: walking the phase
list with the index compared against `currentPhase` (phases before the
current one contribute their full weight, the current phase a partial
weight, later phases nothing). -/
def phasesTotal (s : TrackerState) : List ProgressPhase → Nat → ℚ
  | [], _ => 0
  | phase :: _, 0 => phase.weight * calculatePhaseProgress s phase / 100
  | phase :: rest, n + 1 => phase.weight + phasesTotal s rest n

/-- `ProgressTracker.calculateProgress`. -/
def calculateProgress (s : TrackerState) : ℤ :=
  min 100 (max s.lastReportedProgress
    (jsRound (phasesTotal s s.phases s.currentPhase)))

/-- `ProgressTracker.sendProgressIfIncreased`. -/
def sendProgressIfIncreased (s : TrackerState) (message : String)
    (modelId : Option String) : TrackerState × List StreamEvent :=
  let currentProgress := calculateProgress s
  if currentProgress > s.lastReportedProgress ∨ currentProgress = 100 ∨
      currentProgress = 0 then
    ({ s with lastReportedProgress := currentProgress },
     [sendProgress message currentProgress modelId])
  else (s, [])

/-- `step.completed = true`. -/
def completeStep (st : ProgressStep) : ProgressStep := { st with completed := true }

/-- Set the `completed` flag of step `stepIdx` of phase `phaseIdx`. -/
def setStepCompleted (phases : List ProgressPhase) (phaseIdx stepIdx : Nat) :
    List ProgressPhase :=
  modifyAt phases phaseIdx (fun ph =>
    { ph with steps := modifyAt ph.steps stepIdx completeStep })

/-- Set the `completed` flag of every step of phase `phaseIdx`
(`phases[i].steps.forEach(step => step.completed = true)`). -/
def completePhaseSteps (phases : List ProgressPhase) (phaseIdx : Nat) :
    List ProgressPhase :=
  modifyAt phases phaseIdx (fun ph =>
    { ph with steps := ph.steps.map completeStep })

/-- Look up a model's entry in the `modelProgress` map. -/
def lookupModel (modelProgress : List (String × ModelProgress)) (modelId : String) :
    Option ModelProgress :=
  (modelProgress.find? (fun p => p.1 = modelId)).map Prod.snd

/-- Update a model's entry in the `modelProgress` map in place. -/
def updateModel (modelProgress : List (String × ModelProgress)) (modelId : String)
    (f : ModelProgress → ModelProgress) : List (String × ModelProgress) :=
  modelProgress.map (fun p => if p.1 = modelId then (p.1, f p.2) else p)

/-- The milestone mutators exposed by `ProgressTracker`, one constructor per
public method. -/
inductive MCall where
  | initComplete
  | modelHooksGenerated (modelId : String)
  | modelHooksEvaluated (modelId : String)
  | modelComplete (modelId : String)
  | allModelsComplete
  | analysisStepComplete (stepName : String)
  | analysisComplete
  | pipelineComplete
deriving DecidableEq

/-- `progress.hooksGenerated = true`. -/
def setGeneratedFlag (m : ModelProgress) : ModelProgress :=
  { m with hooksGenerated := true }

/-- `progress.hooksEvaluated = true`. -/
def setEvaluatedFlag (m : ModelProgress) : ModelProgress :=
  { m with hooksEvaluated := true }

/-- `progress.completed = true`. -/
def setCompletedFlag (m : ModelProgress) : ModelProgress :=
  { m with completed := true }

/-- Shared shape of the three per-model mutators (`modelHooksGenerated`,
`modelHooksEvaluated`, `modelComplete`): look the model up, set one flag if
the entry exists, then `sendProgressIfIncreased`. -/
def perModelCall (s : TrackerState) (modelId : String)
    (setFlag : ModelProgress → ModelProgress) (message : String) :
    TrackerState × List StreamEvent :=
  match lookupModel s.modelProgress modelId with
  | none => (s, [])
  | some _ =>
    let s' := { s with modelProgress := updateModel s.modelProgress modelId setFlag }
    sendProgressIfIncreased s' message (some modelId)

/-- Apply one milestone mutator, returning the new state together with the
events it emits to the Sink. -/
def applyCall (c : MCall) (s : TrackerState) :
    TrackerState × List StreamEvent :=
  match c with
  | .initComplete =>
    let s' := { s with phases := setStepCompleted s.phases 0 0, currentPhase := 1 }
    sendProgressIfIncreased s'
      "Pipeline initialized, starting model processing..." none
  | .modelHooksGenerated modelId =>
    perModelCall s modelId setGeneratedFlag ("Generated hooks for " ++ modelId)
  | .modelHooksEvaluated modelId =>
    perModelCall s modelId setEvaluatedFlag ("Evaluated hooks for " ++ modelId)
  | .modelComplete modelId =>
    perModelCall s modelId setCompletedFlag ("Completed processing " ++ modelId)
  | .allModelsComplete =>
    let s' := { s with phases := completePhaseSteps s.phases 1, currentPhase := 2 }
    let completed := (s'.modelProgress.filter (fun p => p.2.completed)).length
    let total := s'.modelProgress.length
    sendProgressIfIncreased s'
      ("Model processing complete (" ++ toString completed ++ "/" ++
        toString total ++ "), starting analysis...") none
  | .analysisStepComplete stepName =>
    match s.phases[2]? with
    | none => (s, [])
    | some analysisPhase =>
      match analysisPhase.steps.findIdx? (fun st => strIncludes st.name stepName) with
      | none => (s, [])
      | some stepIdx =>
        let s' := { s with phases := setStepCompleted s.phases 2 stepIdx }
        sendProgressIfIncreased s' ("Completed " ++ stepName) none
  | .analysisComplete =>
    let s' := { s with phases := completePhaseSteps s.phases 2, currentPhase := 3 }
    sendProgressIfIncreased s' "Analysis complete, finalizing results..." none
  | .pipelineComplete =>
    let s' := { s with phases := setStepCompleted s.phases 3 0, currentPhase := 4,
                       lastReportedProgress := 99 }
    (s', [sendProgress "Pipeline complete!" 100 none])

/-- Run a sequence of milestone mutator calls, accumulating the emitted
events in order. -/
def runCalls (s : TrackerState) :
    List MCall → TrackerState × List StreamEvent
  | [] => (s, [])
  | c :: rest =>
    let r := applyCall c s
    let r' := runCalls r.1 rest
    (r'.1, r.2 ++ r'.2)

/-- The progress values of a list of events, in emission order. -/
def emittedValues (out : List StreamEvent) : List ℤ :=
  out.filterMap StreamEvent.progress

/-- Tracker states reachable by milestone mutator calls from a freshly
constructed tracker. -/
inductive ReachableTracker (selectedModels analysisOptions : List String) :
    TrackerState → Prop where
  | init : ReachableTracker selectedModels analysisOptions
      (initTracker selectedModels analysisOptions)
  | step {s : TrackerState} (c : MCall) :
      ReachableTracker selectedModels analysisOptions s →
      ReachableTracker selectedModels analysisOptions (applyCall c s).1

/-! ## Model configurations (`unified-llm-service.ts`) -/

/-- `ModelConfig` in `unified-llm-service.ts`. -/
structure ModelConfig where
  id : String
  name : String
  provider : String
  model : String
  supported : Bool
  maxTokens : Option ℚ := none
  new : Option Bool := none
deriving DecidableEq

/-- `UNIFIED_MODEL_CONFIGS` in `unified-llm-service.ts`. -/
def UNIFIED_MODEL_CONFIGS : List ModelConfig :=
  [ { id := "gpt-5", name := "GPT-5", provider := "openai", model := "gpt-5",
      supported := true, new := some true, maxTokens := some 400000 },
    { id := "gpt4o", name := "GPT-4o", provider := "openai", model := "gpt-4o",
      supported := true, maxTokens := some 4096 },
    { id := "gpt-4.1", name := "GPT-4.1", provider := "openai", model := "gpt-4.1",
      supported := true, maxTokens := some 4096 },
    { id := "gpt4o-mini", name := "GPT-4o Mini", provider := "openai",
      model := "gpt-4o-mini", supported := true, maxTokens := some 4096 },
    { id := "o4-mini", name := "O4 Mini", provider := "openai", model := "o4-mini",
      supported := true, maxTokens := some 4096 },
    { id := "claude-3-5-haiku", name := "Claude 3.5 Haiku", provider := "anthropic",
      model := "claude-3-5-haiku-latest", supported := true, maxTokens := some 4096 },
    { id := "claude-opus-4-1", name := "Claude Opus 4.1", provider := "anthropic",
      model := "claude-opus-4-1", supported := true, maxTokens := some 4096 } ]

/-- `validateModelConfig` in `unified-llm-service.ts`: find the config or
throw. -/
def validateModelConfig (configs : List ModelConfig) (modelId : String) :
    Except String ModelConfig :=
  match configs.find? (fun m => m.id = modelId) with
  | none => .error ("Model configuration not found for: " ++ modelId)
  | some config =>
    if ¬ config.supported then .error ("Model not supported: " ++ config.name)
    else .ok config

/-! ## Pipeline service (`pipeline-service.ts`) -/

/-- The value resolved by `generateHooksWithModel` (the Generator
collaborator): a batch of candidate hooks plus execution metadata. -/
structure GenResult where
  hooks : List String
  executionTime : ℚ
  tokenUsage : Option ℚ
deriving DecidableEq

/-- The catch branch of `PipelineService.evaluateHooks`: the fallback entry
substituted when the Judge call for one hook fails. -/
def fallbackEntry (basicEval : String → HookEvaluation) (hook : String) :
    HookEvalEntry :=
  { hook := hook, judgeScore := 0, criteriaBreakdown := [], strengths := [],
    weaknesses := ["Judge evaluation failed"],
    recommendations := ["Retry evaluation"], confidence := 1,
    basicEvaluation := basicEval hook }

/-- The per-hook fan-out of `PipelineService.evaluateHooks`: one Judge call
per hook, each wrapped in its own try/catch, results assembled positionally
(`Promise.all`). `judge` is the Judge collaborator, `basicEval` the local
deterministic scorer `evaluateHook`. -/
def evaluateHooks (judge : String → Except String JudgeResult)
    (basicEval : String → HookEvaluation) (hooks : List String) :
    List HookEvalEntry :=
  hooks.map (fun hook =>
    match judge hook with
    | .ok judgeResult =>
      { hook := hook, judgeScore := judgeResult.overallScore,
        criteriaBreakdown := judgeResult.criteriaResults,
        strengths := judgeResult.metaAnalysis.strengths,
        weaknesses := judgeResult.metaAnalysis.weaknesses,
        recommendations := judgeResult.metaAnalysis.recommendations,
        confidence := judgeResult.judgeConfidence,
        basicEvaluation := basicEval hook }
    | .error _ => fallbackEntry basicEval hook)

/-- One formatted hook of `PipelineService.formatModelResult`. -/
def formatHookRecord (e : HookEvalEntry) : HookRecord :=
  { hook := e.hook,
    wordCount := e.basicEvaluation.wordCount,
    totalScore := e.judgeScore,
    basicScore := e.basicEvaluation.totalScore,
    explanation := e.basicEvaluation.explanation,
    judgeAnalysis :=
      { criteriaBreakdown := e.criteriaBreakdown, strengths := e.strengths,
        weaknesses := e.weaknesses, recommendations := e.recommendations,
        confidence := e.confidence },
    semanticScore :=
      ((e.criteriaBreakdown.find? (fun c => c.criterion = "emotional_impact")).map
        CriterionResult.score).getD 0,
    engagementPrediction :=
      (((e.criteriaBreakdown.find? (fun c => c.criterion = "attention_grabbing")).map
        CriterionResult.score).getD 0) * 10,
    confidenceLevel := (if e.confidence = 0 then 5 else e.confidence) * 10,
    recommendations := e.recommendations }

/-- `PipelineService.formatModelResult`. -/
def formatModelResult (configs : List ModelConfig) (modelId : String)
    (evaluations : List HookEvalEntry) (result : GenResult) : ModelRecord :=
  let modelInfo := configs.find? (fun m => m.id = modelId)
  let averageJudgeScore :=
    (evaluations.map HookEvalEntry.judgeScore).sum / (evaluations.length : ℚ)
  let averageBasicScore :=
    (evaluations.map (fun e => e.basicEvaluation.totalScore)).sum /
      (evaluations.length : ℚ)
  { model := jsOrStr (modelInfo.map ModelConfig.name) (some modelId) |>.getD modelId,
    provider := some (jsOrStr (modelInfo.map ModelConfig.provider)
      (some "unknown") |>.getD "unknown"),
    hooks := evaluations.map formatHookRecord,
    averageScore := round10 averageJudgeScore,
    basicAverageScore := some (round10 averageBasicScore),
    strengths := ((evaluations.map HookEvalEntry.strengths).flatten).take 3,
    weaknesses := ((evaluations.map HookEvalEntry.weaknesses).flatten).take 3,
    executionTime := some result.executionTime,
    tokensUsed := result.tokenUsage,
    judgeMetadata := some
      { evaluationMethod := "LLM-as-a-Judge", judgeModel := "gpt-4o",
        backupModel := "gpt-4o-mini",
        avgConfidence :=
          (evaluations.map HookEvalEntry.confidence).sum / (evaluations.length : ℚ) },
    error := none }

/-- `PipelineService.processModel`: validate the config, call the
Generator, report `modelHooksGenerated`, evaluate the hooks (which itself
reports `modelHooksEvaluated` once, line 259), report
`modelHooksEvaluated` again (line 199), format.  Any `Except.error`
corresponds to a rejected promise escaping to the caller's catch. -/
def processModel (configs : List ModelConfig)
    (gen : String → Except String GenResult)
    (judge : String → Except String JudgeResult)
    (basicEval : String → HookEvaluation)
    (modelId : String) (s : TrackerState) :
    Except String ModelRecord × TrackerState × List StreamEvent :=
  match validateModelConfig configs modelId with
  | .error e => (.error e, s, [])
  | .ok _ =>
    match gen modelId with
    | .error e => (.error e, s, [])
    | .ok result =>
      let r1 := applyCall (.modelHooksGenerated modelId) s
      let evaluations := evaluateHooks judge basicEval result.hooks
      let r2 := applyCall (.modelHooksEvaluated modelId) r1.1
      let r3 := applyCall (.modelHooksEvaluated modelId) r2.1
      (.ok (formatModelResult configs modelId evaluations result),
       r3.1, r1.2 ++ r2.2 ++ r3.2)

/-- The record built by the per-worker catch branch in
`PipelineService.processModels`. -/
def errorRecord (modelId message : String) : ModelRecord :=
  { model := modelId, provider := none, hooks := [], averageScore := 0,
    basicAverageScore := none, strengths := [], weaknesses := [],
    executionTime := none, tokensUsed := none, judgeMetadata := none,
    error := some message }

/-- One worker task of `PipelineService.processModels` (the closure mapped
over `selectedModels`): try `processModel` then `modelComplete`; on error,
send a per-worker error event and return an error record instead. -/
def runWorker (configs : List ModelConfig)
    (gen : String → Except String GenResult)
    (judge : String → Except String JudgeResult)
    (basicEval : String → HookEvaluation)
    (modelId : String) (s : TrackerState) :
    (String × ModelRecord) × TrackerState × List StreamEvent :=
  match processModel configs gen judge basicEval modelId s with
  | (.ok record, s', events) =>
    let r := applyCall (.modelComplete modelId) s'
    ((modelId, record), r.1, events ++ r.2)
  | (.error message, s', events) =>
    ((modelId, errorRecord modelId message), s',
     events ++ [sendError ("Failed to process " ++ modelId) message (some modelId)])

/-- `PipelineService.processModels`: run every worker, collect the results
in selection order, then `allModelsComplete`. -/
def processModels (configs : List ModelConfig)
    (gen : String → Except String GenResult)
    (judge : String → Except String JudgeResult)
    (basicEval : String → HookEvaluation)
    (selectedModels : List String) (s : TrackerState) :
    List (String × ModelRecord) × TrackerState × List StreamEvent :=
  match selectedModels with
  | [] =>
    let r := applyCall .allModelsComplete s
    ([], r.1, r.2)
  | modelId :: rest =>
    let w := runWorker configs gen judge basicEval modelId s
    let r := processModels configs gen judge basicEval rest w.2.1
    (w.1 :: r.1, r.2.1, w.2.2 ++ r.2.2)

/-- `PipelineService.runAnalysis`: one `analysisStepComplete` per configured
category, then the comparative step, then `analysisComplete`. -/
def runAnalysis (analysisOptions : List String) (s : TrackerState) :
    TrackerState × List StreamEvent :=
  let steps :=
    (if analysisOptions.contains "semantic" then
      [MCall.analysisStepComplete "semantic"] else []) ++
    (if analysisOptions.contains "psychological" then
      [MCall.analysisStepComplete "psychological"] else []) ++
    (if analysisOptions.contains "engagement" then
      [MCall.analysisStepComplete "engagement"] else []) ++
    [MCall.analysisStepComplete "comparative", MCall.analysisComplete]
  runCalls s steps

/-- The successful entries of the results map, as ranking entries, before
sorting (`Object.entries(results).filter(...).map(...)` in
`compileResults`). -/
def successScores (results : List (String × ModelRecord)) : List ScoreEntry :=
  (results.filter (fun p => ¬ jsTruthyStr p.2.error)).map
    (fun p => { modelId := p.1, score := p.2.averageScore })

/-- The comparator of the sort in `compileResults`
(`(a, b) => b.score - a.score`): `a` stays before `b` exactly when
`b.score - a.score ≤ 0`. -/
def scoreLe (a b : ScoreEntry) : Bool := decide (b.score ≤ a.score)

/-- The sort in `compileResults`: `.sort((a, b) => b.score - a.score)`.
JS `Array.prototype.sort` is a stable sort, modelled by `mergeSort`. -/
def sortScores (entries : List ScoreEntry) : List ScoreEntry :=
  entries.mergeSort scoreLe

/-- `PipelineService.compileResults` without its tracker side effect: the
terminal `PipelineResult` payload. -/
def compileResultsPayload (configs : List ModelConfig)
    (selectedModels : List String)
    (results : List (String × ModelRecord)) : PipelineResult :=
  let modelScores := sortScores (successScores results)
  let winner := jsOrStr ((modelScores[0]?).map ScoreEntry.modelId) selectedModels[0]?
  let scoreDifference :=
    match modelScores[0]?, modelScores[1]? with
    | some a, some b => round10 (a.score - b.score)
    | _, _ => 0
  let winnerName :=
    match winner with
    | none => "undefined"
    | some w =>
      (jsOrStr ((configs.find? (fun m => m.id = w)).map ModelConfig.name)
        (some w)).getD w
  { results := results,
    comparison :=
      { winner := winner, scoreDifference := scoreDifference,
        confidenceLevel := 85, modelRankings := modelScores },
    analytics :=
      { executionTime := (results.map (fun p => (p.2.executionTime).getD 0)).sum,
        modelsAnalyzed := (results.filter (fun p => ¬ jsTruthyStr p.2.error)).length,
        modelsFailed := (results.filter (fun p => jsTruthyStr p.2.error)).length },
    insights :=
      { keyFindings :=
          [ winnerName ++ " won with " ++
              toString (((modelScores[0]?).map ScoreEntry.score).getD 0) ++ "/10",
            "Score difference: " ++ toString scoreDifference ++ " points",
            "Successfully analyzed " ++
              toString (results.filter (fun p => ¬ jsTruthyStr p.2.error)).length ++
              "/" ++ toString selectedModels.length ++ " models",
            "Used LLM-as-a-Judge evaluation with GPT-4o" ],
        recommendations :=
          [ "Consider A/B testing top performing hooks",
            "Focus on emotional triggers for better engagement",
            "Test with your target audience",
            "Review judge analysis for specific improvements" ],
        performanceSummary :=
          { highestScore := (((modelScores[0]?).map ScoreEntry.score).getD 0),
            lowestScore := (((modelScores.getLast?).map ScoreEntry.score).getD 0),
            averageScore :=
              (modelScores.map ScoreEntry.score).sum /
                (max modelScores.length 1 : ℚ),
            consistencyScore := 85 / 10,
            evaluationMethod := "LLM-as-a-Judge",
            judgeModel := "GPT-4o" } } }

/-- `PipelineService.compileResults`: build the payload, then
`pipelineComplete`. -/
def compileResults (configs : List ModelConfig) (selectedModels : List String)
    (results : List (String × ModelRecord)) (s : TrackerState) :
    PipelineResult × TrackerState × List StreamEvent :=
  let finalResults := compileResultsPayload configs selectedModels results
  let r := applyCall .pipelineComplete s
  (finalResults, r.1, r.2)

/-- `PipelineService.execute`: initialization, model processing, analysis,
compilation, blob upload, terminal `complete` event.  `put` is the blob
upload collaborator (`@vercel/blob`); its rejection is the one failure that
escapes `execute` (every worker failure is caught further down).  Returns
the events enqueued on the Sink, and the error if `execute` rejects. -/
def execute (configs : List ModelConfig)
    (gen : String → Except String GenResult)
    (judge : String → Except String JudgeResult)
    (basicEval : String → HookEvaluation)
    (put : PipelineResult → Except String String)
    (selectedModels analysisOptions : List String) :
    List StreamEvent × Option String :=
  let s0 := initTracker selectedModels analysisOptions
  let r1 := applyCall .initComplete s0
  let pm := processModels configs gen judge basicEval selectedModels r1.1
  let ra := runAnalysis analysisOptions pm.2.1
  let cr := compileResults configs selectedModels pm.1 ra.1
  match put cr.1 with
  | .ok url =>
    (r1.2 ++ pm.2.2 ++ ra.2 ++ cr.2.2 ++ [sendComplete (.urlData url)], none)
  | .error e =>
    (r1.2 ++ pm.2.2 ++ ra.2 ++ cr.2.2, some e)

/-- `StreamingService.createStream`: run the processor; on rejection send a
final error event (`catch`); close the controller exactly once
(`finally`).  Returns the events enqueued and the number of `close`
calls. -/
def runStream (processor : List StreamEvent × Option String) :
    List StreamEvent × Nat :=
  match processor with
  | (events, none) => (events, 1)
  | (events, some e) => (events ++ [sendError "Pipeline failed" e none], 1)

/-! ## Basic lemmas about the tracker -/

theorem calculateProgress_le (s : TrackerState) : calculateProgress s ≤ 100 := by
  unfold calculateProgress
  omega

theorem le_calculateProgress (s : TrackerState)
    (h : s.lastReportedProgress ≤ 100) :
    s.lastReportedProgress ≤ calculateProgress s := by
  unfold calculateProgress
  omega

theorem calculateProgress_set_last (s : TrackerState) (v : ℤ) :
    calculateProgress { s with lastReportedProgress := v } =
      min 100 (max v (jsRound (phasesTotal s s.phases s.currentPhase))) := by
  have hp : phasesTotal { s with lastReportedProgress := v } s.phases
      s.currentPhase = phasesTotal s s.phases s.currentPhase := by
    have : ∀ l n, phasesTotal { s with lastReportedProgress := v } l n =
        phasesTotal s l n := by
      intro l
      induction l with
      | nil => intro n; rfl
      | cons ph rest ih =>
        intro n
        cases n with
        | zero => rfl
        | succ n => simp [phasesTotal, ih]
    exact this _ _
  simp [calculateProgress, hp]

theorem send_shape (s : TrackerState) (m : String) (mid : Option String) :
    (sendProgressIfIncreased s m mid =
        ({ s with lastReportedProgress := calculateProgress s },
         [sendProgress m (calculateProgress s) mid]) ∧
      (calculateProgress s > s.lastReportedProgress ∨
        calculateProgress s = 100 ∨ calculateProgress s = 0)) ∨
    (sendProgressIfIncreased s m mid = (s, []) ∧
      ¬(calculateProgress s > s.lastReportedProgress ∨
        calculateProgress s = 100 ∨ calculateProgress s = 0)) := by
  by_cases h : calculateProgress s > s.lastReportedProgress ∨
      calculateProgress s = 100 ∨ calculateProgress s = 0
  · exact Or.inl ⟨by simp [sendProgressIfIncreased, h], h⟩
  · exact Or.inr ⟨by simp [sendProgressIfIncreased, h], h⟩

/-- Every mutator either goes through `sendProgressIfIncreased` on a state
with the same `lastReportedProgress`, does nothing, or is
`pipelineComplete`'s unconditional emission of 100 from a state with
`lastReportedProgress = 99`. -/
theorem applyCall_shape (c : MCall) (s : TrackerState) :
    (∃ s' msg mid, applyCall c s = sendProgressIfIncreased s' msg mid ∧
      s'.lastReportedProgress = s.lastReportedProgress) ∨
    applyCall c s = (s, []) ∨
    (∃ s', applyCall c s =
        (s', [sendProgress "Pipeline complete!" 100 none]) ∧
      s'.lastReportedProgress = 99 ∧ c = .pipelineComplete) := by
  cases c with
  | initComplete => exact Or.inl ⟨_, _, _, rfl, rfl⟩
  | modelHooksGenerated modelId =>
    simp only [applyCall, perModelCall]
    cases lookupModel s.modelProgress modelId with
    | none => exact Or.inr (Or.inl rfl)
    | some _ => exact Or.inl ⟨_, _, _, rfl, rfl⟩
  | modelHooksEvaluated modelId =>
    simp only [applyCall, perModelCall]
    cases lookupModel s.modelProgress modelId with
    | none => exact Or.inr (Or.inl rfl)
    | some _ => exact Or.inl ⟨_, _, _, rfl, rfl⟩
  | modelComplete modelId =>
    simp only [applyCall, perModelCall]
    cases lookupModel s.modelProgress modelId with
    | none => exact Or.inr (Or.inl rfl)
    | some _ => exact Or.inl ⟨_, _, _, rfl, rfl⟩
  | allModelsComplete => exact Or.inl ⟨_, _, _, rfl, rfl⟩
  | analysisStepComplete stepName =>
    simp only [applyCall]
    split
    · exact Or.inr (Or.inl rfl)
    · split
      · exact Or.inr (Or.inl rfl)
      · exact Or.inl ⟨_, _, _, rfl, rfl⟩
  | analysisComplete => exact Or.inl ⟨_, _, _, rfl, rfl⟩
  | pipelineComplete => exact Or.inr (Or.inr ⟨_, rfl, rfl, rfl⟩)

/-! ## The emission invariant (monotone, deduplicated progress values) -/

/-- The invariant tying `lastReportedProgress` to the history of emitted
progress values: everything emitted is in `[0, 100]`; every emitted value
is `100` or at most `lastReportedProgress`; once `100` has been emitted,
`lastReportedProgress` stays at least `99`; the history is non-decreasing;
and no value other than the boundary values `0` and `100` occurs twice. -/
def TrackInv (last : ℤ) (vals : List ℤ) : Prop :=
  0 ≤ last ∧ last ≤ 100 ∧
  (∀ v ∈ vals, 0 ≤ v ∧ v ≤ 100) ∧
  (∀ v ∈ vals, v = 100 ∨ v ≤ last) ∧
  ((100 : ℤ) ∈ vals → 99 ≤ last) ∧
  vals.Pairwise (· ≤ ·) ∧
  (∀ v : ℤ, v ≠ 0 → v ≠ 100 → vals.count v ≤ 1)

theorem emittedValues_append (a b : List StreamEvent) :
    emittedValues (a ++ b) = emittedValues a ++ emittedValues b := by
  simp [emittedValues]

theorem emittedValues_sendProgress (m : String) (v : ℤ) (mid : Option String) :
    emittedValues [sendProgress m v mid] = [v] := by
  simp [emittedValues, sendProgress]

theorem trackInv_append_emit {last : ℤ} {vals : List ℤ} (v : ℤ)
    (inv : TrackInv last vals)
    (hle : last ≤ v) (h100 : v ≤ 100)
    (hcond : v > last ∨ v = 100 ∨ v = 0) :
    TrackInv v (vals ++ [v]) := by
  obtain ⟨h0, h1, hb, hlast, h99, hpw, hcount⟩ := inv
  refine ⟨by omega, h100, ?_, ?_, ?_, ?_, ?_⟩
  · intro e he
    rcases List.mem_append.mp he with he | he
    · exact hb e he
    · simp only [List.mem_singleton] at he
      subst he
      exact ⟨by omega, h100⟩
  · intro e he
    rcases List.mem_append.mp he with he | he
    · rcases hlast e he with h | h
      · exact Or.inl h
      · exact Or.inr (le_trans h hle)
    · simp only [List.mem_singleton] at he
      subst he
      exact Or.inr (le_refl _)
  · intro hmem
    rcases List.mem_append.mp hmem with hm | hm
    · exact le_trans (h99 hm) hle
    · simp only [List.mem_singleton] at hm
      omega
  · rw [List.pairwise_append]
    refine ⟨hpw, List.pairwise_singleton _ _, ?_⟩
    intro a ha b hb'
    simp only [List.mem_singleton] at hb'
    subst hb'
    rcases hlast a ha with h | h
    · -- a previously emitted 100: lastReported is at least 99, so v = 100
      subst h
      have h99' := h99 ha
      omega
    · exact le_trans h hle
  · intro w hw0 hw100
    rw [List.count_append]
    by_cases hwv : w = v
    · subst hwv
      have hgt : w > last := by
        rcases hcond with h | h | h
        · exact h
        · exact absurd h hw100
        · exact absurd h hw0
      have : vals.count w = 0 := by
        rw [List.count_eq_zero]
        intro hmem
        rcases hlast w hmem with h | h
        · exact hw100 h
        · omega
      simp [this]
    · have hz : List.count w [v] = 0 := by
        rw [List.count_eq_zero]
        simp only [List.mem_singleton]
        exact hwv
      rw [hz]
      simpa using hcount w hw0 hw100

theorem trackInv_send (s : TrackerState) (m : String) (mid : Option String)
    (vals : List ℤ) (inv : TrackInv s.lastReportedProgress vals) :
    TrackInv (sendProgressIfIncreased s m mid).1.lastReportedProgress
      (vals ++ emittedValues (sendProgressIfIncreased s m mid).2) := by
  rcases send_shape s m mid with ⟨heq, hcond⟩ | ⟨heq, _⟩
  · rw [heq]
    simp only [emittedValues_sendProgress]
    exact trackInv_append_emit _ inv
      (le_calculateProgress s inv.2.1) (calculateProgress_le s) hcond
  · rw [heq]
    simpa [emittedValues] using inv

theorem trackInv_apply (c : MCall) (s : TrackerState) (vals : List ℤ)
    (inv : TrackInv s.lastReportedProgress vals) :
    TrackInv (applyCall c s).1.lastReportedProgress
      (vals ++ emittedValues (applyCall c s).2) := by
  rcases applyCall_shape c s with ⟨s', msg, mid, heq, hlast⟩ | heq |
    ⟨s', heq, hlast, -⟩
  · rw [heq]
    exact trackInv_send s' msg mid vals (by rw [hlast]; exact inv)
  · rw [heq]
    simpa [emittedValues] using inv
  · rw [heq]
    simp only [emittedValues_sendProgress, hlast]
    obtain ⟨h0, h1, hb, hlast', h99, hpw, hcount⟩ := inv
    refine ⟨by omega, by omega, ?_, ?_, ?_, ?_, ?_⟩
    · intro e he
      rcases List.mem_append.mp he with he | he
      · exact hb e he
      · simp only [List.mem_singleton] at he
        omega
    · intro e he
      rcases List.mem_append.mp he with he | he
      · by_cases h : e = 100
        · exact Or.inl h
        · rcases hlast' e he with h' | h'
          · exact Or.inl h'
          · refine Or.inr ?_
            have := (hb e he).2
            omega
      · simp only [List.mem_singleton] at he
        exact Or.inl he
    · intro _; omega
    · rw [List.pairwise_append]
      refine ⟨hpw, List.pairwise_singleton _ _, ?_⟩
      intro a ha b hb'
      simp only [List.mem_singleton] at hb'
      subst hb'
      exact (hb a ha).2
    · intro w hw0 hw100
      rw [List.count_append]
      have hz : List.count w [(100 : ℤ)] = 0 := by
        rw [List.count_eq_zero]
        simp only [List.mem_singleton]
        exact hw100
      rw [hz]
      simpa using hcount w hw0 hw100

theorem trackInv_runCalls (calls : List MCall) :
    ∀ (s : TrackerState) (vals : List ℤ),
      TrackInv s.lastReportedProgress vals →
      TrackInv (runCalls s calls).1.lastReportedProgress
        (vals ++ emittedValues (runCalls s calls).2) := by
  induction calls with
  | nil =>
    intro s vals inv
    simpa [runCalls, emittedValues] using inv
  | cons c rest ih =>
    intro s vals inv
    simp only [runCalls, emittedValues_append, ← List.append_assoc]
    exact ih (applyCall c s).1 _ (trackInv_apply c s vals inv)

theorem trackInv_initial : TrackInv (0 : ℤ) [] := by
  refine ⟨le_refl _, by omega, ?_, ?_, ?_, List.Pairwise.nil, ?_⟩ <;> simp

/-! ## Idempotence of the milestone mutators -/

theorem modifyAt_modifyAt {α : Type} (l : List α) (i : Nat) (f g : α → α) :
    modifyAt (modifyAt l i f) i g = modifyAt l i (fun a => g (f a)) := by
  induction l generalizing i with
  | nil => cases i <;> rfl
  | cons a t ih =>
    cases i with
    | zero => rfl
    | succ n => simp [modifyAt, ih]

theorem modifyAt_congr {α : Type} (l : List α) (i : Nat) (f g : α → α)
    (h : ∀ a, f a = g a) : modifyAt l i f = modifyAt l i g := by
  induction l generalizing i with
  | nil => rfl
  | cons a t ih =>
    cases i with
    | zero => simp [modifyAt, h]
    | succ n => simp [modifyAt, ih]

theorem modifyAt_getElem?_self {α : Type} (l : List α) (i : Nat) (f : α → α) :
    (modifyAt l i f)[i]? = (l[i]?).map f := by
  induction l generalizing i with
  | nil => cases i <;> rfl
  | cons a t ih =>
    cases i with
    | zero => simp [modifyAt]
    | succ n => simpa [modifyAt] using ih n

theorem findIdx?_modifyAt {α : Type} (l : List α) (i start : Nat) (f : α → α)
    (p : α → Bool) (h : ∀ a, p (f a) = p a) :
    (modifyAt l i f).findIdx? p start = l.findIdx? p start := by
  induction l generalizing i start with
  | nil => cases i <;> rfl
  | cons a t ih =>
    cases i with
    | zero => simp [modifyAt, List.findIdx?_cons, h]
    | succ n => simp [modifyAt, List.findIdx?_cons, ih]

theorem setStepCompleted_idem (phases : List ProgressPhase) (i j : Nat) :
    setStepCompleted (setStepCompleted phases i j) i j =
      setStepCompleted phases i j := by
  unfold setStepCompleted
  rw [modifyAt_modifyAt]
  exact modifyAt_congr _ _ _ _ (fun ph => by
    simp only [modifyAt_modifyAt]
    exact congrArg _ (modifyAt_congr _ _ _ _ (fun st => rfl)))

theorem completePhaseSteps_idem (phases : List ProgressPhase) (i : Nat) :
    completePhaseSteps (completePhaseSteps phases i) i =
      completePhaseSteps phases i := by
  unfold completePhaseSteps
  rw [modifyAt_modifyAt]
  exact modifyAt_congr _ _ _ _ (fun ph => by simp [completeStep])

theorem lookupModel_updateModel (mp : List (String × ModelProgress))
    (modelId : String) (f : ModelProgress → ModelProgress) :
    lookupModel (updateModel mp modelId f) modelId =
      (lookupModel mp modelId).map f := by
  unfold lookupModel updateModel
  induction mp with
  | nil => rfl
  | cons p t ih =>
    by_cases h : p.1 = modelId
    · simp [List.find?_cons, h]
    · simp only [List.map_cons, if_neg h, List.find?_cons]
      have : (decide (p.1 = modelId)) = false := by simp [h]
      simp only [this, cond_false]
      exact ih

theorem updateModel_idem (mp : List (String × ModelProgress))
    (modelId : String) (f : ModelProgress → ModelProgress)
    (hf : ∀ m, f (f m) = f m) :
    updateModel (updateModel mp modelId f) modelId f =
      updateModel mp modelId f := by
  unfold updateModel
  rw [List.map_map]
  apply List.map_congr_left
  intro p _
  by_cases h : p.1 = modelId
  · simp [Function.comp, h, hf]
  · simp [Function.comp, h]

/-- Replacing `lastReportedProgress` by its current value is the
identity. -/
theorem set_last_self (s : TrackerState) (v : ℤ)
    (h : s.lastReportedProgress = v) :
    { s with lastReportedProgress := v } = s := by
  cases s
  simp_all

/-- After one `sendProgressIfIncreased`, a second one on the resulting
state does not change the state, and anything it emits carries a boundary
progress value (exactly 0 or exactly 100). -/
theorem send_twice (t : TrackerState) (m1 m2 : String)
    (mid1 mid2 : Option String) :
    (sendProgressIfIncreased (sendProgressIfIncreased t m1 mid1).1 m2 mid2).1 =
      (sendProgressIfIncreased t m1 mid1).1 ∧
    ∀ e ∈ (sendProgressIfIncreased (sendProgressIfIncreased t m1 mid1).1 m2 mid2).2,
      e.progress = some 0 ∨ e.progress = some 100 := by
  rcases send_shape t m1 mid1 with ⟨heq1, _⟩ | ⟨heq1, hncond⟩
  · -- first call emitted; the recomputed value equals the stored one
    rw [heq1]
    have hv : calculateProgress { t with lastReportedProgress := calculateProgress t } =
        calculateProgress t := by
      rw [calculateProgress_set_last]
      unfold calculateProgress
      omega
    rcases send_shape { t with lastReportedProgress := calculateProgress t } m2 mid2
      with ⟨heq2, hcond2⟩ | ⟨heq2, _⟩
    · rw [heq2]
      have hlast : TrackerState.lastReportedProgress
          { t with lastReportedProgress := calculateProgress t } =
            calculateProgress t := rfl
      refine ⟨set_last_self _ _ hv.symm, ?_⟩
      intro e he
      simp only [List.mem_singleton] at he
      subst he
      simp only [sendProgress]
      rcases hcond2 with h | h | h
      · exact absurd h (by omega)
      · exact Or.inr (congrArg some h)
      · exact Or.inl (congrArg some h)
    · rw [heq2]
      exact ⟨rfl, by simp⟩
  · -- first call suppressed; the second evaluates the same condition
    rw [heq1]
    rcases send_shape t m2 mid2 with ⟨_, hcond2⟩ | ⟨heq2, _⟩
    · exact absurd hcond2 hncond
    · rw [heq2]
      exact ⟨rfl, by simp⟩

theorem send_fst_phases (t : TrackerState) (m : String) (mid : Option String) :
    (sendProgressIfIncreased t m mid).1.phases = t.phases := by
  by_cases h : calculateProgress t > t.lastReportedProgress ∨
      calculateProgress t = 100 ∨ calculateProgress t = 0 <;>
    simp [sendProgressIfIncreased, h]

theorem send_fst_currentPhase (t : TrackerState) (m : String) (mid : Option String) :
    (sendProgressIfIncreased t m mid).1.currentPhase = t.currentPhase := by
  by_cases h : calculateProgress t > t.lastReportedProgress ∨
      calculateProgress t = 100 ∨ calculateProgress t = 0 <;>
    simp [sendProgressIfIncreased, h]

theorem send_fst_modelProgress (t : TrackerState) (m : String) (mid : Option String) :
    (sendProgressIfIncreased t m mid).1.modelProgress = t.modelProgress := by
  by_cases h : calculateProgress t > t.lastReportedProgress ∨
      calculateProgress t = 100 ∨ calculateProgress t = 0 <;>
    simp [sendProgressIfIncreased, h]

theorem update_phases_cp (st : TrackerState) (p : List ProgressPhase) (c : Nat)
    (h1 : p = st.phases) (h2 : c = st.currentPhase) :
    ({ st with phases := p, currentPhase := c } : TrackerState) = st := by
  cases st
  cases h1
  cases h2
  rfl

theorem update_mp (st : TrackerState) (mp : List (String × ModelProgress))
    (h : mp = st.modelProgress) :
    ({ st with modelProgress := mp } : TrackerState) = st := by
  cases st
  cases h
  rfl

theorem update_phases_only (st : TrackerState) (p : List ProgressPhase)
    (h : p = st.phases) :
    ({ st with phases := p } : TrackerState) = st := by
  cases st
  cases h
  rfl

theorem update_phases_cp_last (st : TrackerState) (p : List ProgressPhase)
    (c : Nat) (v : ℤ) (h1 : p = st.phases) (h2 : c = st.currentPhase)
    (h3 : v = st.lastReportedProgress) :
    ({ st with phases := p, currentPhase := c, lastReportedProgress := v } :
      TrackerState) = st := by
  cases st
  cases h1
  cases h2
  cases h3
  rfl

theorem apply_twice_of_send (c : MCall) (s t : TrackerState) (m : String)
    (mid : Option String)
    (h1 : applyCall c s = sendProgressIfIncreased t m mid)
    (h2 : ∃ m2 mid2, applyCall c (sendProgressIfIncreased t m mid).1 =
      sendProgressIfIncreased (sendProgressIfIncreased t m mid).1 m2 mid2) :
    (applyCall c (applyCall c s).1).1 = (applyCall c s).1 ∧
    ∀ e ∈ (applyCall c (applyCall c s).1).2,
      e.progress = some 0 ∨ e.progress = some 100 := by
  obtain ⟨m2, mid2, h2⟩ := h2
  rw [h1, h2]
  exact send_twice t m m2 mid mid2


/-- The common idempotence argument for the three per-model mutators. -/
theorem perModelCall_twice (s : TrackerState) (modelId : String)
    (setFlag : ModelProgress → ModelProgress) (msg1 msg2 : String)
    (hflag : ∀ m, setFlag (setFlag m) = setFlag m) :
    (perModelCall (perModelCall s modelId setFlag msg1).1 modelId setFlag msg2).1 =
      (perModelCall s modelId setFlag msg1).1 ∧
    ∀ e ∈ (perModelCall (perModelCall s modelId setFlag msg1).1 modelId
        setFlag msg2).2,
      e.progress = some 0 ∨ e.progress = some 100 := by
  rcases hlk : lookupModel s.modelProgress modelId with _ | m
  · have h1 : perModelCall s modelId setFlag msg1 = (s, []) := by
      simp [perModelCall, hlk]
    simp [h1, perModelCall, hlk]
  · have h1 : perModelCall s modelId setFlag msg1 =
        sendProgressIfIncreased
          { s with modelProgress := updateModel s.modelProgress modelId setFlag }
          msg1 (some modelId) := by
      simp [perModelCall, hlk]
    rw [h1]
    have hlk2 : lookupModel
        (sendProgressIfIncreased
          { s with modelProgress := updateModel s.modelProgress modelId setFlag }
          msg1 (some modelId)).1.modelProgress modelId = some (setFlag m) := by
      rw [send_fst_modelProgress]
      show lookupModel (updateModel s.modelProgress modelId setFlag) modelId = _
      rw [lookupModel_updateModel, hlk]
      rfl
    have h2 : perModelCall
        (sendProgressIfIncreased
          { s with modelProgress := updateModel s.modelProgress modelId setFlag }
          msg1 (some modelId)).1 modelId setFlag msg2 =
        sendProgressIfIncreased
          (sendProgressIfIncreased
            { s with modelProgress := updateModel s.modelProgress modelId setFlag }
            msg1 (some modelId)).1 msg2 (some modelId) := by
      simp only [perModelCall, hlk2]
      congr 1
      apply update_mp
      rw [send_fst_modelProgress]
      show updateModel (updateModel s.modelProgress modelId setFlag) modelId
          setFlag = updateModel s.modelProgress modelId setFlag
      exact updateModel_idem _ _ _ hflag
    rw [h2]
    exact send_twice _ msg1 msg2 (some modelId) (some modelId)

/-- C9 (amended): every `ProgressTracker` milestone mutator is idempotent
with respect to tracker state — calling it twice with the same arguments
leaves the state (phase flags, worker flags, `lastReportedProgress`)
identical to calling it once — and the second call emits no message unless
the recomputed progress value is exactly 0 or exactly 100 (in particular
`pipelineComplete` unconditionally re-emits 100). -/
theorem c9_mutators_idempotent (c : MCall) (s : TrackerState) :
    (applyCall c (applyCall c s).1).1 = (applyCall c s).1 ∧
    ∀ e ∈ (applyCall c (applyCall c s).1).2,
      e.progress = some 0 ∨ e.progress = some 100 := by
  cases c with
  | initComplete =>
    refine apply_twice_of_send _ s _ _ none rfl ?_
    exact ⟨_, _, by
      simp only [applyCall]
      congr 1
      apply update_phases_cp
      · rw [send_fst_phases]
        show setStepCompleted (setStepCompleted s.phases 0 0) 0 0 =
          setStepCompleted s.phases 0 0
        exact setStepCompleted_idem _ _ _
      · rw [send_fst_currentPhase]⟩
  | modelHooksGenerated modelId =>
    exact perModelCall_twice s modelId setGeneratedFlag _ _ (fun m => rfl)
  | modelHooksEvaluated modelId =>
    exact perModelCall_twice s modelId setEvaluatedFlag _ _ (fun m => rfl)
  | modelComplete modelId =>
    exact perModelCall_twice s modelId setCompletedFlag _ _ (fun m => rfl)
  | allModelsComplete =>
    refine apply_twice_of_send _ s _ _ none rfl ?_
    exact ⟨_, _, by
      simp only [applyCall]
      congr 1
      apply update_phases_cp
      · rw [send_fst_phases]
        show completePhaseSteps (completePhaseSteps s.phases 1) 1 =
          completePhaseSteps s.phases 1
        exact completePhaseSteps_idem _ _
      · rw [send_fst_currentPhase]⟩
  | analysisStepComplete stepName =>
    rcases hp2 : s.phases[2]? with _ | ph
    · have h1 : applyCall (.analysisStepComplete stepName) s = (s, []) := by
        simp [applyCall, hp2]
      simp [h1, applyCall, hp2]
    · rcases hf : ph.steps.findIdx? (fun st => strIncludes st.name stepName)
        with _ | stepIdx
      · have h1 : applyCall (.analysisStepComplete stepName) s = (s, []) := by
          simp [applyCall, hp2, hf]
        simp [h1, applyCall, hp2, hf]
      · have h1 : applyCall (.analysisStepComplete stepName) s =
            sendProgressIfIncreased
              { s with phases := setStepCompleted s.phases 2 stepIdx }
              ("Completed " ++ stepName) none := by
          simp [applyCall, hp2, hf]
        refine apply_twice_of_send _ s _ _ none h1 ?_
        have hp2' : (sendProgressIfIncreased
            { s with phases := setStepCompleted s.phases 2 stepIdx }
            ("Completed " ++ stepName) none).1.phases[2]? =
            some { ph with steps := modifyAt ph.steps stepIdx completeStep } := by
          rw [send_fst_phases]
          show (setStepCompleted s.phases 2 stepIdx)[2]? = _
          unfold setStepCompleted
          rw [modifyAt_getElem?_self, hp2]
          rfl
        have hf' : List.findIdx? (fun st => strIncludes st.name stepName)
            (modifyAt ph.steps stepIdx completeStep) = some stepIdx := by
          rw [findIdx?_modifyAt ph.steps stepIdx 0 completeStep
            (fun st => strIncludes st.name stepName) (fun a => rfl)]
          exact hf
        exact ⟨_, _, by
          simp only [applyCall, hp2', hf']
          congr 1
          apply update_phases_only
          rw [send_fst_phases]
          show setStepCompleted (setStepCompleted s.phases 2 stepIdx) 2 stepIdx =
            setStepCompleted s.phases 2 stepIdx
          exact setStepCompleted_idem _ _ _⟩
  | analysisComplete =>
    refine apply_twice_of_send _ s _ _ none rfl ?_
    exact ⟨_, _, by
      simp only [applyCall]
      congr 1
      apply update_phases_cp
      · rw [send_fst_phases]
        show completePhaseSteps (completePhaseSteps s.phases 2) 2 =
          completePhaseSteps s.phases 2
        exact completePhaseSteps_idem _ _
      · rw [send_fst_currentPhase]⟩
  | pipelineComplete =>
    refine ⟨?_, ?_⟩
    · show ({ (applyCall .pipelineComplete s).1 with
          phases := setStepCompleted (applyCall .pipelineComplete s).1.phases 3 0,
          currentPhase := 4, lastReportedProgress := 99 } : TrackerState) =
        (applyCall .pipelineComplete s).1
      apply update_phases_cp_last
      · show setStepCompleted (setStepCompleted s.phases 3 0) 3 0 =
          setStepCompleted s.phases 3 0
        exact setStepCompleted_idem _ _ _
      · rfl
      · rfl
    · intro e he
      simp only [applyCall, List.mem_singleton] at he
      subst he
      exact Or.inr rfl

/-- C1 (amended): for every sequence of milestone mutator calls on one
fresh `ProgressTracker`, the sequence of progress values emitted to the
Sink is non-decreasing and no value other than 0 or 100 appears twice; an
emission happens only when the newly computed value is strictly greater
than `lastReportedProgress` or is exactly 0 or exactly 100; on each
emission made through the increase-gated send path `lastReportedProgress`
is updated to the emitted value, while `pipelineComplete` emits 100
directly and leaves `lastReportedProgress` at 99. -/
theorem c1_progress_emission_discipline :
    (∀ (selectedModels analysisOptions : List String) (calls : List MCall),
      (emittedValues
        (runCalls (initTracker selectedModels analysisOptions) calls).2).Pairwise
          (· ≤ ·) ∧
      ∀ v : ℤ, v ≠ 0 → v ≠ 100 →
        (emittedValues
          (runCalls (initTracker selectedModels analysisOptions) calls).2).count
            v ≤ 1) ∧
    (∀ (c : MCall) (s : TrackerState), ∀ e ∈ (applyCall c s).2,
      ∃ v : ℤ, e.progress = some v ∧
        (v > s.lastReportedProgress ∨ v = 100 ∨ v = 0)) ∧
    (∀ (c : MCall) (s : TrackerState), c ≠ .pipelineComplete →
      ∀ e ∈ (applyCall c s).2,
        e.progress = some (applyCall c s).1.lastReportedProgress) ∧
    (∀ s : TrackerState, ∀ e ∈ (applyCall .pipelineComplete s).2,
      e.progress = some 100 ∧
        (applyCall .pipelineComplete s).1.lastReportedProgress = 99) := by
  refine ⟨?_, ?_, ?_, ?_⟩
  · intro selectedModels analysisOptions calls
    have h := trackInv_runCalls calls (initTracker selectedModels analysisOptions)
      [] trackInv_initial
    simp only [List.nil_append] at h
    exact ⟨h.2.2.2.2.2.1, h.2.2.2.2.2.2⟩
  · intro c s e he
    rcases applyCall_shape c s with ⟨s', msg, mid, heq, hlast⟩ | heq |
      ⟨s', heq, hlast, -⟩
    · rw [heq] at he
      rcases send_shape s' msg mid with ⟨heq2, hcond⟩ | ⟨heq2, _⟩
      · rw [heq2] at he
        simp only [List.mem_singleton] at he
        subst he
        exact ⟨calculateProgress s', rfl, by rw [hlast] at hcond; exact hcond⟩
      · rw [heq2] at he
        simp at he
    · rw [heq] at he
      simp at he
    · rw [heq] at he
      simp only [List.mem_singleton] at he
      subst he
      exact ⟨100, rfl, Or.inr (Or.inl rfl)⟩
  · intro c s hc e he
    rcases applyCall_shape c s with ⟨s', msg, mid, heq, hlast⟩ | heq |
      ⟨s', heq, hlast, hpc⟩
    · rw [heq] at he ⊢
      rcases send_shape s' msg mid with ⟨heq2, hcond⟩ | ⟨heq2, _⟩
      · rw [heq2] at he ⊢
        simp only [List.mem_singleton] at he
        subst he
        rfl
      · rw [heq2] at he
        simp at he
    · rw [heq] at he
      simp at he
    · exact absurd hpc hc
  · intro s e he
    simp only [applyCall, List.mem_singleton] at he
    subst he
    exact ⟨rfl, rfl⟩

/-- The tiny concrete tracker state used by witnesses: no phases, no
workers, `lastReportedProgress = 0`. -/
def tinyState : TrackerState :=
  { phases := [], currentPhase := 0, modelProgress := [], lastReportedProgress := 0 }

theorem jsRound_zero : jsRound 0 = 0 := by
  rw [jsRound, Int.floor_eq_iff]
  norm_num

theorem applyCall_init_tinyState :
    applyCall .initComplete tinyState =
      ((⟨[], 1, [], 0⟩ : TrackerState),
       [sendProgress "Pipeline initialized, starting model processing..."
         0 none]) := by
  have hcalc : calculateProgress (⟨[], 1, [], 0⟩ : TrackerState) = 0 := by
    simp [calculateProgress, phasesTotal, jsRound_zero]
  simp [applyCall, tinyState, setStepCompleted, modifyAt,
    sendProgressIfIncreased, hcalc]

/-- C1 witness: concrete instances of the parts of
`c1_progress_emission_discipline` that carry hypotheses. -/
theorem c1_progress_emission_discipline_witness :
    ((emittedValues (runCalls (initTracker ["m1"] ["semantic"]) []).2).count 7
      ≤ 1) ∧
    (∃ v : ℤ, (sendProgress "Pipeline complete!" 100 none
        : StreamEvent).progress = some v ∧
      (v > tinyState.lastReportedProgress ∨ v = 100 ∨ v = 0)) ∧
    ((sendProgress "Pipeline initialized, starting model processing..." 0 none
        : StreamEvent).progress =
      some (applyCall .initComplete tinyState).1.lastReportedProgress) :=
  ⟨(c1_progress_emission_discipline.1 ["m1"] ["semantic"] []).2 7
      (by decide) (by decide),
   c1_progress_emission_discipline.2.1 MCall.pipelineComplete tinyState
     (sendProgress "Pipeline complete!" 100 none) (List.mem_singleton.mpr rfl),
   c1_progress_emission_discipline.2.2.1 MCall.initComplete tinyState
     (by intro h; cases h)
     (sendProgress "Pipeline initialized, starting model processing..." 0 none)
     (by rw [applyCall_init_tinyState]; exact List.mem_singleton.mpr rfl)⟩

/-- C1 counterexample to the claim as stated: `pipelineComplete` emits the
value 100 but leaves `lastReportedProgress` at 99, so `lastReportedProgress`
is not updated to the emitted value on this emission. -/
theorem c1_counterexample :
    (applyCall .pipelineComplete (initTracker ["m1"] ["semantic"])).2 =
      [sendProgress "Pipeline complete!" 100 none] ∧
    (applyCall .pipelineComplete
      (initTracker ["m1"] ["semantic"])).1.lastReportedProgress = 99 ∧
    (99 : ℤ) ≠ 100 :=
  ⟨rfl, rfl, by decide⟩

/-- C8: in every tracker state, `pipelineComplete` emits exactly one
progress message with value exactly 100, and it forces
`lastReportedProgress` to 99 (the value it has set immediately before the
unconditional emission), so the terminal event is never suppressed. -/
theorem c8_pipeline_complete_emits_100 (s : TrackerState) :
    (applyCall .pipelineComplete s).2 =
      [sendProgress "Pipeline complete!" 100 none] ∧
    (applyCall .pipelineComplete s).1.lastReportedProgress = 99 :=
  ⟨rfl, rfl⟩

/-- C9 counterexample to the claim as stated: the second of two identical
`pipelineComplete` calls still emits a message (it is not suppressed by
the emission rule), even though the state is unchanged. -/
theorem c9_counterexample :
    (applyCall .pipelineComplete (applyCall .pipelineComplete
      (initTracker ["m1"] ["semantic"])).1).2 =
      [sendProgress "Pipeline complete!" 100 none] ∧
    (applyCall .pipelineComplete (applyCall .pipelineComplete
      (initTracker ["m1"] ["semantic"])).1).2 ≠ [] :=
  ⟨rfl, by decide⟩

/-- C9 witness: the idempotence theorem applied to a concrete double
`pipelineComplete` call. -/
theorem c9_mutators_idempotent_witness :
    ((applyCall .pipelineComplete (applyCall .pipelineComplete
        (initTracker ["m1"] ["semantic"])).1).1 =
      (applyCall .pipelineComplete (initTracker ["m1"] ["semantic"])).1) ∧
    ((sendProgress "Pipeline complete!" 100 none : StreamEvent).progress =
        some 0 ∨
      (sendProgress "Pipeline complete!" 100 none : StreamEvent).progress =
        some 100) :=
  ⟨(c9_mutators_idempotent MCall.pipelineComplete
      (initTracker ["m1"] ["semantic"])).1,
   (c9_mutators_idempotent MCall.pipelineComplete
      (initTracker ["m1"] ["semantic"])).2
     (sendProgress "Pipeline complete!" 100 none) (by decide)⟩

/-- C10: calling `modelHooksGenerated`, `modelHooksEvaluated` or
`modelComplete` with a model key that has no entry in the WorkerStatus map
leaves the entire tracker state unchanged and emits nothing. -/
theorem c10_unknown_model_noop (s : TrackerState) (key : String)
    (h : lookupModel s.modelProgress key = none) :
    applyCall (.modelHooksGenerated key) s = (s, []) ∧
    applyCall (.modelHooksEvaluated key) s = (s, []) ∧
    applyCall (.modelComplete key) s = (s, []) := by
  refine ⟨?_, ?_, ?_⟩ <;> simp [applyCall, perModelCall, h]

/-- C10 witness: a key outside the original selection is absent from the
map and all three mutators are no-ops for it. -/
theorem c10_unknown_model_noop_witness :
    lookupModel (initTracker ["m1"] ["semantic"]).modelProgress "m2" = none ∧
    applyCall (.modelHooksGenerated "m2") (initTracker ["m1"] ["semantic"]) =
      (initTracker ["m1"] ["semantic"], []) :=
  ⟨by decide,
   (c10_unknown_model_noop (initTracker ["m1"] ["semantic"]) "m2"
     (by decide)).1⟩

/-! ## The progress formula (specification side) -/

/-- Specification 4.1: for WorkerProcessing, the phase progress is the mean
over all WorkerStatus entries of the per-worker score. -/
def specWorkerPhaseProgress (s : TrackerState) : ℚ :=
  ((s.modelProgress.map Prod.snd).map workerScore).sum /
    (((s.modelProgress.map Prod.snd).length : ℚ))

/-- Specification 4.1: phase progress is the worker mean for the
WorkerProcessing phase and `completedStepWeight / totalStepWeight * 100`
for any other phase. -/
def specPhaseProgress (s : TrackerState) (phase : ProgressPhase) : ℚ :=
  if phase.name = "Model Processing" then specWorkerPhaseProgress s
  else
    ((phase.steps.filter ProgressStep.completed).map ProgressStep.weight).sum /
      ((phase.steps.map ProgressStep.weight).sum) * 100

/-- Specification 4.1: phases strictly before the current one contribute
their full weight, the current phase contributes
`weight * phaseProgress / 100`, later phases contribute nothing, and the
result is `min(100, max(lastReported, round(sum)))`. -/
def specProgress (s : TrackerState) : ℤ :=
  min 100 (max s.lastReportedProgress (jsRound
    (((s.phases.take s.currentPhase).map ProgressPhase.weight).sum +
      (match s.phases[s.currentPhase]? with
       | some ph => ph.weight * specPhaseProgress s ph / 100
       | none => 0))))

theorem phasesTotal_eq (s : TrackerState) (l : List ProgressPhase) (n : Nat) :
    phasesTotal s l n =
      ((l.take n).map ProgressPhase.weight).sum +
        (match l[n]? with
         | some ph => ph.weight * calculatePhaseProgress s ph / 100
         | none => 0) := by
  induction l generalizing n with
  | nil => cases n <;> simp [phasesTotal]
  | cons ph rest ih =>
    cases n with
    | zero => simp [phasesTotal]
    | succ n =>
      simp only [phasesTotal, ih n, List.take_succ_cons, List.map_cons,
        List.sum_cons, List.getElem?_cons_succ]
      ring

theorem workerPhase_eq (s : TrackerState) :
    calculateModelProcessingProgress s = specWorkerPhaseProgress s := by
  unfold calculateModelProcessingProgress specWorkerPhaseProgress
  rcases hmp : s.modelProgress with _ | ⟨p, rest⟩
  · simp
  · simp [hmp]

theorem phaseProgress_eq (s : TrackerState) (phase : ProgressPhase)
    (hw : ∀ st ∈ phase.steps, 0 < st.weight) :
    calculatePhaseProgress s phase = specPhaseProgress s phase := by
  unfold calculatePhaseProgress specPhaseProgress
  by_cases hname : phase.name = "Model Processing"
  · simp [hname, workerPhase_eq]
  · simp only [hname, if_false]
    by_cases hpos : (phase.steps.map ProgressStep.weight).sum > 0
    · simp [hpos]
    · have hempty : phase.steps = [] := by
        by_contra hne
        exact hpos (List.sum_pos _ (by
          intro x hx
          rcases List.mem_map.mp hx with ⟨st, hst, rfl⟩
          exact hw st hst) (by simpa using hne))
      simp [hempty, hpos]

/-- All step weights in a phase list are positive. -/
def PhasesPos (phases : List ProgressPhase) : Prop :=
  ∀ ph ∈ phases, ∀ st ∈ ph.steps, 0 < st.weight

theorem mem_modifyAt {α : Type} {l : List α} {i : Nat} {f : α → α} {a : α}
    (h : a ∈ modifyAt l i f) : a ∈ l ∨ ∃ b ∈ l, a = f b := by
  induction l generalizing i with
  | nil => cases i <;> simp [modifyAt] at h
  | cons x t ih =>
    cases i with
    | zero =>
      simp only [modifyAt] at h
      rcases List.mem_cons.mp h with rfl | h2
      · exact Or.inr ⟨x, List.mem_cons_self _ _, rfl⟩
      · exact Or.inl (List.mem_cons_of_mem _ h2)
    | succ n =>
      simp only [modifyAt] at h
      rcases List.mem_cons.mp h with rfl | h2
      · exact Or.inl (List.mem_cons_self _ _)
      · rcases ih h2 with h' | ⟨b, hb, rfl⟩
        · exact Or.inl (List.mem_cons_of_mem _ h')
        · exact Or.inr ⟨b, List.mem_cons_of_mem _ hb, rfl⟩

theorem PhasesPos_setStep {phases : List ProgressPhase} (i j : Nat)
    (h : PhasesPos phases) : PhasesPos (setStepCompleted phases i j) := by
  intro ph hph st hst
  rcases mem_modifyAt hph with hph' | ⟨ph0, hph0, rfl⟩
  · exact h ph hph' st hst
  · rcases mem_modifyAt hst with hst' | ⟨st0, hst0, rfl⟩
    · exact h ph0 hph0 st hst'
    · exact h ph0 hph0 st0 hst0

theorem PhasesPos_complete {phases : List ProgressPhase} (i : Nat)
    (h : PhasesPos phases) : PhasesPos (completePhaseSteps phases i) := by
  intro ph hph st hst
  rcases mem_modifyAt hph with hph' | ⟨ph0, hph0, rfl⟩
  · exact h ph hph' st hst
  · simp only [List.mem_map] at hst
    rcases hst with ⟨st0, hst0, rfl⟩
    exact h ph0 hph0 st0 hst0

theorem PhasesPos_init (analysisOptions : List String) :
    PhasesPos (initializePhases analysisOptions) := by
  intro ph hph st hst
  have hdiv : 0 < (100 : ℚ) / ((analysisOptions.length : ℚ) + 1) := by
    apply div_pos
    · norm_num
    · positivity
  simp only [initializePhases, List.mem_cons, List.not_mem_nil, or_false] at hph
  rcases hph with rfl | rfl | rfl | rfl
  · simp only [List.mem_cons, List.not_mem_nil, or_false] at hst
    subst hst
    norm_num
  · simp only [List.mem_cons, List.not_mem_nil, or_false] at hst
    rcases hst with rfl | rfl
    · norm_num
    · norm_num
  · simp only [List.mem_append, List.mem_map, List.mem_cons,
      List.not_mem_nil, or_false] at hst
    rcases hst with ⟨o, _, rfl⟩ | rfl
    · exact hdiv
    · exact hdiv
  · simp only [List.mem_cons, List.not_mem_nil, or_false] at hst
    subst hst
    norm_num

theorem applyCall_phases (c : MCall) (s : TrackerState) :
    (applyCall c s).1.phases = s.phases ∨
    (∃ i j, (applyCall c s).1.phases = setStepCompleted s.phases i j) ∨
    (∃ i, (applyCall c s).1.phases = completePhaseSteps s.phases i) := by
  cases c with
  | initComplete =>
    refine Or.inr (Or.inl ⟨0, 0, ?_⟩)
    rw [show applyCall .initComplete s = sendProgressIfIncreased
      { s with phases := setStepCompleted s.phases 0 0, currentPhase := 1 }
      "Pipeline initialized, starting model processing..." none from rfl]
    rw [send_fst_phases]
  | modelHooksGenerated modelId =>
    rcases hlk : lookupModel s.modelProgress modelId with _ | m
    · refine Or.inl ?_
      simp [applyCall, perModelCall, hlk]
    · refine Or.inl ?_
      simp only [applyCall, perModelCall, hlk]
      rw [send_fst_phases]
  | modelHooksEvaluated modelId =>
    rcases hlk : lookupModel s.modelProgress modelId with _ | m
    · refine Or.inl ?_
      simp [applyCall, perModelCall, hlk]
    · refine Or.inl ?_
      simp only [applyCall, perModelCall, hlk]
      rw [send_fst_phases]
  | modelComplete modelId =>
    rcases hlk : lookupModel s.modelProgress modelId with _ | m
    · refine Or.inl ?_
      simp [applyCall, perModelCall, hlk]
    · refine Or.inl ?_
      simp only [applyCall, perModelCall, hlk]
      rw [send_fst_phases]
  | allModelsComplete =>
    refine Or.inr (Or.inr ⟨1, ?_⟩)
    rw [show applyCall .allModelsComplete s = sendProgressIfIncreased
      { s with phases := completePhaseSteps s.phases 1, currentPhase := 2 }
      ("Model processing complete (" ++
        toString ((List.filter (fun p => p.2.completed) s.modelProgress).length)
        ++ "/" ++ toString s.modelProgress.length ++
        "), starting analysis...") none from rfl]
    rw [send_fst_phases]
  | analysisStepComplete stepName =>
    rcases hp2 : s.phases[2]? with _ | ph
    · refine Or.inl ?_
      simp [applyCall, hp2]
    · rcases hf : ph.steps.findIdx? (fun st => strIncludes st.name stepName)
        with _ | stepIdx
      · refine Or.inl ?_
        simp [applyCall, hp2, hf]
      · refine Or.inr (Or.inl ⟨2, stepIdx, ?_⟩)
        simp only [applyCall, hp2, hf]
        rw [send_fst_phases]
  | analysisComplete =>
    refine Or.inr (Or.inr ⟨2, ?_⟩)
    rw [show applyCall .analysisComplete s = sendProgressIfIncreased
      { s with phases := completePhaseSteps s.phases 2, currentPhase := 3 }
      "Analysis complete, finalizing results..." none from rfl]
    rw [send_fst_phases]
  | pipelineComplete =>
    exact Or.inr (Or.inl ⟨3, 0, rfl⟩)

theorem reachable_phasesPos {selectedModels analysisOptions : List String}
    {s : TrackerState}
    (h : ReachableTracker selectedModels analysisOptions s) :
    PhasesPos s.phases := by
  induction h with
  | init => exact PhasesPos_init analysisOptions
  | step c _ ih =>
    rcases applyCall_phases c _ with heq | ⟨i, j, heq⟩ | ⟨i, heq⟩
    · rw [heq]; exact ih
    · rw [heq]; exact PhasesPos_setStep i j ih
    · rw [heq]; exact PhasesPos_complete i ih

theorem reachable_last_bounds {selectedModels analysisOptions : List String}
    {s : TrackerState}
    (h : ReachableTracker selectedModels analysisOptions s) :
    0 ≤ s.lastReportedProgress ∧ s.lastReportedProgress ≤ 100 := by
  induction h with
  | init => exact ⟨le_refl _, by norm_num [initTracker]⟩
  | step c hprev =>
    rename_i t ih
    rcases applyCall_shape c t with ⟨s', msg, mid, heq, hlast⟩ | heq |
      ⟨s', heq, hlast, -⟩
    · rw [heq]
      rcases send_shape s' msg mid with ⟨heq2, _⟩ | ⟨heq2, _⟩
      · rw [heq2]
        have h1 := le_calculateProgress s' (by rw [hlast]; exact ih.2)
        have h2 := calculateProgress_le s'
        rw [hlast] at h1
        have h0 := ih.1
        exact ⟨by simpa using le_trans h0 h1, by simpa using h2⟩
      · rw [heq2, hlast]
        exact ih
    · rw [heq]
      exact ih
    · rw [heq]
      simp only [hlast]
      norm_num

theorem calculateProgress_eq_spec (s : TrackerState)
    (h : PhasesPos s.phases) : calculateProgress s = specProgress s := by
  unfold calculateProgress specProgress
  have hT : phasesTotal s s.phases s.currentPhase =
      ((s.phases.take s.currentPhase).map ProgressPhase.weight).sum +
        (match s.phases[s.currentPhase]? with
         | some ph => ph.weight * specPhaseProgress s ph / 100
         | none => 0) := by
    rw [phasesTotal_eq]
    cases hx : s.phases[s.currentPhase]? with
    | none => rfl
    | some ph =>
      simp only []
      rw [phaseProgress_eq s ph (h ph (List.getElem?_mem hx))]
  rw [hT]

/-- C2: in every reachable tracker state, `calculateProgress` equals the
specification's formula — full weight for phases strictly before the
current one, `weight * phaseProgress / 100` for the current phase (worker
mean for WorkerProcessing, completed-step-weight ratio otherwise), nothing
for later phases, the whole clamped as
`min(100, max(lastReported, round(sum)))` — and the result is an integer
in `[0, 100]`. -/
theorem c2_progress_formula (selectedModels analysisOptions : List String)
    (s : TrackerState)
    (h : ReachableTracker selectedModels analysisOptions s) :
    calculateProgress s = specProgress s ∧
    0 ≤ calculateProgress s ∧ calculateProgress s ≤ 100 := by
  refine ⟨calculateProgress_eq_spec s (reachable_phasesPos h), ?_, calculateProgress_le s⟩
  have hb := reachable_last_bounds h
  have := le_calculateProgress s hb.2
  omega

/-- C2 witness: the formula and bounds at the freshly constructed
tracker. -/
theorem c2_progress_formula_witness :
    calculateProgress (initTracker ["m1"] ["semantic"]) =
      specProgress (initTracker ["m1"] ["semantic"]) ∧
    0 ≤ calculateProgress (initTracker ["m1"] ["semantic"]) ∧
    calculateProgress (initTracker ["m1"] ["semantic"]) ≤ 100 :=
  c2_progress_formula ["m1"] ["semantic"] _ ReachableTracker.init

/-! ## Pipeline lemmas -/

/-- The per-model record produced by one worker, as a function of the
collaborators only: the worker's record does not depend on the tracker
state it observes. -/
def workerOutcome (configs : List ModelConfig)
    (gen : String → Except String GenResult)
    (judge : String → Except String JudgeResult)
    (basicEval : String → HookEvaluation) (modelId : String) : ModelRecord :=
  match validateModelConfig configs modelId with
  | .error e => errorRecord modelId e
  | .ok _ =>
    match gen modelId with
    | .error e => errorRecord modelId e
    | .ok result =>
      formatModelResult configs modelId
        (evaluateHooks judge basicEval result.hooks) result

theorem runWorker_fst (configs : List ModelConfig)
    (gen : String → Except String GenResult)
    (judge : String → Except String JudgeResult)
    (basicEval : String → HookEvaluation) (modelId : String)
    (s : TrackerState) :
    (runWorker configs gen judge basicEval modelId s).1 =
      (modelId, workerOutcome configs gen judge basicEval modelId) := by
  unfold runWorker processModel workerOutcome
  cases validateModelConfig configs modelId with
  | error e => rfl
  | ok cfg =>
    cases gen modelId with
    | error e => rfl
    | ok result => rfl

theorem processModels_results (configs : List ModelConfig)
    (gen : String → Except String GenResult)
    (judge : String → Except String JudgeResult)
    (basicEval : String → HookEvaluation) (selectedModels : List String) :
    ∀ s : TrackerState,
      (processModels configs gen judge basicEval selectedModels s).1 =
        selectedModels.map
          (fun m => (m, workerOutcome configs gen judge basicEval m)) := by
  induction selectedModels with
  | nil => intro s; rfl
  | cons m rest ih =>
    intro s
    simp only [processModels, List.map_cons]
    rw [runWorker_fst, ih]

theorem applyCall_currentPhase_allModelsComplete (s : TrackerState) :
    (applyCall .allModelsComplete s).1.currentPhase = 2 := by
  rw [show applyCall .allModelsComplete s = sendProgressIfIncreased
    { s with phases := completePhaseSteps s.phases 1, currentPhase := 2 }
    ("Model processing complete (" ++
      toString ((List.filter (fun p => p.2.completed) s.modelProgress).length)
      ++ "/" ++ toString s.modelProgress.length ++
      "), starting analysis...") none from rfl]
  rw [send_fst_currentPhase]

theorem applyCall_mp_allModelsComplete (s : TrackerState) :
    (applyCall .allModelsComplete s).1.modelProgress = s.modelProgress := by
  rw [show applyCall .allModelsComplete s = sendProgressIfIncreased
    { s with phases := completePhaseSteps s.phases 1, currentPhase := 2 }
    ("Model processing complete (" ++
      toString ((List.filter (fun p => p.2.completed) s.modelProgress).length)
      ++ "/" ++ toString s.modelProgress.length ++
      "), starting analysis...") none from rfl]
  rw [send_fst_modelProgress]

theorem processModels_currentPhase (configs : List ModelConfig)
    (gen : String → Except String GenResult)
    (judge : String → Except String JudgeResult)
    (basicEval : String → HookEvaluation) (selectedModels : List String) :
    ∀ s : TrackerState,
      (processModels configs gen judge basicEval selectedModels s).2.1.currentPhase
        = 2 := by
  induction selectedModels with
  | nil => intro s; exact applyCall_currentPhase_allModelsComplete s
  | cons m rest ih =>
    intro s
    simp only [processModels]
    exact ih _

theorem formatModelResult_error_none (configs : List ModelConfig)
    (modelId : String) (evaluations : List HookEvalEntry)
    (result : GenResult) :
    (formatModelResult configs modelId evaluations result).error = none := rfl

/-- Events emitted by any single mutator call are progress events. -/
theorem applyCall_event_types (c : MCall) (s : TrackerState) :
    ∀ e ∈ (applyCall c s).2, e.type = "progress" := by
  intro e he
  rcases applyCall_shape c s with ⟨s', msg, mid, heq, -⟩ | heq | ⟨s', heq, -, -⟩
  · rw [heq] at he
    rcases send_shape s' msg mid with ⟨heq2, -⟩ | ⟨heq2, -⟩
    · rw [heq2] at he
      simp only [List.mem_singleton] at he
      subst he
      rfl
    · rw [heq2] at he
      simp at he
  · rw [heq] at he
    simp at he
  · rw [heq] at he
    simp only [List.mem_singleton] at he
    subst he
    rfl

theorem runCalls_event_types (calls : List MCall) :
    ∀ (s : TrackerState), ∀ e ∈ (runCalls s calls).2, e.type = "progress" := by
  induction calls with
  | nil => intro s e he; simp [runCalls] at he
  | cons c rest ih =>
    intro s e he
    simp only [runCalls, List.mem_append] at he
    rcases he with he | he
    · exact applyCall_event_types c s e he
    · exact ih _ e he

theorem runAnalysis_event_types (analysisOptions : List String)
    (s : TrackerState) :
    ∀ e ∈ (runAnalysis analysisOptions s).2, e.type = "progress" := by
  intro e he
  exact runCalls_event_types _ s e he

theorem processModel_event_types (configs : List ModelConfig)
    (gen : String → Except String GenResult)
    (judge : String → Except String JudgeResult)
    (basicEval : String → HookEvaluation) (modelId : String)
    (s : TrackerState) :
    ∀ e ∈ (processModel configs gen judge basicEval modelId s).2.2,
      e.type = "progress" := by
  intro e he
  unfold processModel at he
  rcases hv : validateModelConfig configs modelId with msg | cfg
  · rw [hv] at he
    simp at he
  · rw [hv] at he
    rcases hg : gen modelId with msg | result
    · rw [hg] at he
      simp at he
    · rw [hg] at he
      simp only [List.mem_append] at he
      rcases he with (he | he) | he
      · exact applyCall_event_types _ _ e he
      · exact applyCall_event_types _ _ e he
      · exact applyCall_event_types _ _ e he

theorem runWorker_event_types (configs : List ModelConfig)
    (gen : String → Except String GenResult)
    (judge : String → Except String JudgeResult)
    (basicEval : String → HookEvaluation) (modelId : String)
    (s : TrackerState) :
    ∀ e ∈ (runWorker configs gen judge basicEval modelId s).2.2,
      e.type = "progress" ∨ e.type = "error" := by
  intro e he
  unfold runWorker at he
  rcases hpm : processModel configs gen judge basicEval modelId s
    with ⟨res, s', events⟩
  rw [hpm] at he
  cases res with
  | ok record =>
    simp only [List.mem_append] at he
    rcases he with he | he
    · exact Or.inl (processModel_event_types configs gen judge basicEval
        modelId s e (by rw [hpm]; exact he))
    · exact Or.inl (applyCall_event_types _ _ e he)
  | error msg =>
    simp only [List.mem_append, List.mem_singleton] at he
    rcases he with he | he
    · exact Or.inl (processModel_event_types configs gen judge basicEval
        modelId s e (by rw [hpm]; exact he))
    · subst he
      exact Or.inr rfl

theorem processModels_event_types (configs : List ModelConfig)
    (gen : String → Except String GenResult)
    (judge : String → Except String JudgeResult)
    (basicEval : String → HookEvaluation) (selectedModels : List String) :
    ∀ (s : TrackerState), ∀ e ∈
      (processModels configs gen judge basicEval selectedModels s).2.2,
      e.type = "progress" ∨ e.type = "error" := by
  induction selectedModels with
  | nil =>
    intro s e he
    exact Or.inl (applyCall_event_types _ _ e he)
  | cons m rest ih =>
    intro s e he
    simp only [processModels, List.mem_append] at he
    rcases he with he | he
    · exact runWorker_event_types configs gen judge basicEval m s e he
    · exact ih _ e he

/-- C4: the Evaluator returns exactly one entry per input candidate, in
input order; a candidate whose Judge call fails yields the fallback entry
(score 0, confidence 1, empty strengths, the "Judge evaluation failed"
sentinel weakness) at that position; and each position depends only on its
own candidate's Judge outcome, so siblings are unaffected. -/
theorem c4_evaluator_isolation :
    (∀ (judge : String → Except String JudgeResult)
        (basicEval : String → HookEvaluation) (hooks : List String),
      (evaluateHooks judge basicEval hooks).length = hooks.length) ∧
    (∀ (judge : String → Except String JudgeResult)
        (basicEval : String → HookEvaluation) (hooks : List String)
        (i : Nat) (hk : String),
      hooks[i]? = some hk →
      ((evaluateHooks judge basicEval hooks)[i]?).map HookEvalEntry.hook =
        some hk) ∧
    (∀ (judge : String → Except String JudgeResult)
        (basicEval : String → HookEvaluation) (hooks : List String)
        (i : Nat) (hk msg : String),
      hooks[i]? = some hk → judge hk = .error msg →
      (evaluateHooks judge basicEval hooks)[i]? =
        some (fallbackEntry basicEval hk)) ∧
    (∀ (judge1 judge2 : String → Except String JudgeResult)
        (basicEval : String → HookEvaluation) (hooks : List String)
        (i : Nat) (hk : String),
      hooks[i]? = some hk → judge1 hk = judge2 hk →
      (evaluateHooks judge1 basicEval hooks)[i]? =
        (evaluateHooks judge2 basicEval hooks)[i]?) := by
  refine ⟨?_, ?_, ?_, ?_⟩
  · intro judge basicEval hooks
    simp [evaluateHooks]
  · intro judge basicEval hooks i hk hi
    unfold evaluateHooks
    rw [List.getElem?_map, hi]
    simp only [Option.map_some']
    rcases hj : judge hk with msg | jr <;> simp [hj, fallbackEntry]
  · intro judge basicEval hooks i hk msg hi herr
    unfold evaluateHooks
    rw [List.getElem?_map, hi]
    simp only [Option.map_some']
    rw [herr]
  · intro judge1 judge2 basicEval hooks i hk hi h12
    unfold evaluateHooks
    rw [List.getElem?_map, List.getElem?_map, hi]
    simp only [Option.map_some']
    rw [h12]

/-- A concrete Judge verdict used by witnesses. -/
def jr0 : JudgeResult :=
  { overallScore := 7, criteriaResults := [{ criterion := "emotional_impact", score := 8 }],
    metaAnalysis := { strengths := ["s1"], weaknesses := ["w1"],
                      recommendations := ["r1"] },
    judgeConfidence := 5 }

/-- A concrete local scorer used by witnesses. -/
def basic0 : String → HookEvaluation := fun h =>
  { hook := h, wordCount := 3,
    criteria := { englishLanguage := 6, length := 7, emotion := 3,
                  linkedinRelevance := 4, readability := 8,
                  attentionGrabbing := 4, bonusPoints := 0 },
    totalScore := 5, explanation := "ok" }

/-- A concrete Judge that fails on exactly one candidate. -/
def judge0 : String → Except String JudgeResult := fun h =>
  if h = "bad" then .error "judge down" else .ok jr0

/-- C4 witness: the evaluator theorem applied to two candidates of which
the second fails. -/
theorem c4_evaluator_isolation_witness :
    (["good", "bad"][1]? = some "bad") ∧
    (judge0 "bad" = .error "judge down") ∧
    (evaluateHooks judge0 basic0 ["good", "bad"])[1]? =
      some (fallbackEntry basic0 "bad") :=
  ⟨rfl, rfl,
   c4_evaluator_isolation.2.2.1 judge0 basic0 ["good", "bad"] 1 "bad"
     "judge down" rfl rfl⟩

theorem scoreLe_trans (a b c : ScoreEntry) (hab : scoreLe a b)
    (hbc : scoreLe b c) : scoreLe a c := by
  simp only [scoreLe, decide_eq_true_eq] at *
  exact le_trans hbc hab

theorem scoreLe_total (a b : ScoreEntry) : scoreLe a b || scoreLe b a := by
  simp only [scoreLe]
  rcases le_total a.score b.score with h | h <;> simp [h]

theorem sortScores_sorted (entries : List ScoreEntry) :
    (sortScores entries).Pairwise (fun a b => b.score ≤ a.score) := by
  have h := List.sorted_mergeSort scoreLe_trans scoreLe_total entries
  exact h.imp (fun hab => by
    simpa [scoreLe, decide_eq_true_eq] using hab)

theorem sortScores_stable (entries : List ScoreEntry) (q : ℚ) :
    (sortScores entries).filter (fun e => decide (e.score = q)) =
      entries.filter (fun e => decide (e.score = q)) := by
  have hall : ∀ a ∈ entries.filter (fun e => decide (e.score = q)),
      a.score = q := by
    intro a ha
    have := (List.mem_filter.mp ha).2
    simpa using this
  have hpw : (entries.filter (fun e => decide (e.score = q))).Pairwise
      (fun a b => scoreLe a b = true) := by
    apply List.pairwise_of_forall_mem_list
    intro a ha b hb
    simp only [scoreLe, decide_eq_true_eq, hall a ha, hall b hb]
    exact le_refl q
  have hsub2 : List.Sublist (entries.filter (fun e => decide (e.score = q)))
      (sortScores entries) :=
    List.sublist_mergeSort scoreLe_trans scoreLe_total hpw
      (List.filter_sublist entries)
  have hself : (entries.filter (fun e => decide (e.score = q))).filter
      (fun e => decide (e.score = q)) =
      entries.filter (fun e => decide (e.score = q)) := by
    rw [List.filter_eq_self]
    intro a ha
    simp [hall a ha]
  have hsub3 : List.Sublist (entries.filter (fun e => decide (e.score = q)))
      ((sortScores entries).filter (fun e => decide (e.score = q))) := by
    have := hsub2.filter (fun e => decide (e.score = q))
    rwa [hself] at this
  have hlen : ((sortScores entries).filter
      (fun e => decide (e.score = q))).length =
      (entries.filter (fun e => decide (e.score = q))).length :=
    ((List.mergeSort_perm entries scoreLe).filter _).length_eq
  exact (hsub3.eq_of_length hlen.symm).symm

/-- C6: `compileResults` ranks the successful workers with a stable sort,
descending by aggregate score (ties keep the original order — the filter of
the rankings at any fixed score equals the filter of the input); the winner
is the top entry of that order; the score difference is 0 whenever fewer
than two workers succeeded; and for two equal-scoring workers selected in
order `["A", "B"]` the winner is always `"A"`. -/
theorem c6_winner_selection :
    (∀ (configs : List ModelConfig) (selectedModels : List String)
        (results : List (String × ModelRecord)),
      (compileResultsPayload configs selectedModels
        results).comparison.modelRankings = sortScores (successScores results)) ∧
    (∀ entries : List ScoreEntry,
      (sortScores entries).Pairwise (fun a b => b.score ≤ a.score)) ∧
    (∀ (entries : List ScoreEntry) (q : ℚ),
      (sortScores entries).filter (fun e => decide (e.score = q)) =
        entries.filter (fun e => decide (e.score = q))) ∧
    (∀ (configs : List ModelConfig) (selectedModels : List String)
        (results : List (String × ModelRecord)) (e : ScoreEntry)
        (rest : List ScoreEntry),
      sortScores (successScores results) = e :: rest → e.modelId ≠ "" →
      (compileResultsPayload configs selectedModels results).comparison.winner =
        some e.modelId) ∧
    (∀ (configs : List ModelConfig) (selectedModels : List String)
        (results : List (String × ModelRecord)),
      (sortScores (successScores results)).length < 2 →
      (compileResultsPayload configs selectedModels
        results).comparison.scoreDifference = 0) ∧
    (∀ (configs : List ModelConfig) (a b : ModelRecord),
      a.error = none → b.error = none → a.averageScore = b.averageScore →
      (compileResultsPayload configs ["A", "B"]
        [("A", a), ("B", b)]).comparison.winner = some "A") := by
  refine ⟨?_, sortScores_sorted, sortScores_stable, ?_, ?_, ?_⟩
  · intro configs selectedModels results
    rfl
  · intro configs selectedModels results e rest hs hne
    simp only [compileResultsPayload, hs]
    simp [jsOrStr, hne]
  · intro configs selectedModels results hlen
    rcases hs : sortScores (successScores results) with _ | ⟨x, _ | ⟨y, t⟩⟩
    · simp [compileResultsPayload, hs]
    · simp [compileResultsPayload, hs]
    · rw [hs] at hlen
      simp only [List.length_cons] at hlen
      omega
  · intro configs a b ha hb hab
    have hsucc : successScores [("A", a), ("B", b)] =
        [{ modelId := "A", score := a.averageScore },
         { modelId := "B", score := b.averageScore }] := by
      simp [successScores, jsTruthyStr, ha, hb]
    have hsort : sortScores [{ modelId := "A", score := a.averageScore },
        { modelId := "B", score := b.averageScore }] =
        [{ modelId := "A", score := a.averageScore },
         { modelId := "B", score := b.averageScore }] := by
      apply List.mergeSort_of_sorted
      refine List.pairwise_of_forall_mem_list ?_
      intro x hx y hy
      simp only [List.mem_cons, List.not_mem_nil, or_false] at hx hy
      have hx' : x.score = a.averageScore := by
        rcases hx with rfl | rfl
        · rfl
        · exact hab.symm
      have hy' : y.score = a.averageScore := by
        rcases hy with rfl | rfl
        · rfl
        · exact hab.symm
      simp [scoreLe, hx', hy']
    simp only [compileResultsPayload, hsucc, hsort]
    simp [jsOrStr]

/-- A minimal successful model record used by witnesses. -/
def rec0 : ModelRecord :=
  { model := "A", provider := none, hooks := [], averageScore := 7,
    basicAverageScore := none, strengths := [], weaknesses := [],
    executionTime := none, tokensUsed := none, judgeMetadata := none,
    error := none }

/-- C6 witness: concrete instances of the winner-selection theorem's
hypothesis-carrying parts. -/
theorem c6_winner_selection_witness :
    ((compileResultsPayload UNIFIED_MODEL_CONFIGS ["A", "B"]
        [("A", rec0), ("B", rec0)]).comparison.winner = some "A") ∧
    ((sortScores (successScores ([] : List (String × ModelRecord)))).length <
        2 ∧
      (compileResultsPayload UNIFIED_MODEL_CONFIGS ["A"]
        ([] : List (String × ModelRecord))).comparison.scoreDifference = 0) :=
  ⟨c6_winner_selection.2.2.2.2.2 UNIFIED_MODEL_CONFIGS rec0 rec0 rfl rfl rfl,
   by simp [sortScores, successScores],
   c6_winner_selection.2.2.2.2.1 UNIFIED_MODEL_CONFIGS ["A"] []
     (by simp [sortScores, successScores])⟩

/-- A Generator that always fails, used by witnesses. -/
def genFail : String → Except String GenResult := fun _ => .error "API down"

/-- C3 (amended): a worker error (config validation or generation failure)
is caught at the worker boundary and converted into a result entry whose
record carries a non-nil error and an empty candidate list; it is never
rethrown — `processModels` returns one entry per selected model in
selection order regardless of failures — and on the failure path the
tracker state is left untouched, so the failed worker's WorkerStatus is
NOT marked `completed` (`modelComplete` runs only on the success path);
progress does not stall because `allModelsComplete` still runs, leaving
the tracker in the Analysis phase. -/
theorem c3_worker_error_isolation :
    (∀ (configs : List ModelConfig) (gen : String → Except String GenResult)
        (judge : String → Except String JudgeResult)
        (basicEval : String → HookEvaluation) (selectedModels : List String)
        (s : TrackerState),
      (processModels configs gen judge basicEval selectedModels s).1.map
        Prod.fst = selectedModels) ∧
    (∀ (configs : List ModelConfig) (gen : String → Except String GenResult)
        (judge : String → Except String JudgeResult)
        (basicEval : String → HookEvaluation) (modelId : String)
        (s : TrackerState) (msg : String),
      (processModel configs gen judge basicEval modelId s).1 =
          Except.error msg →
      (runWorker configs gen judge basicEval modelId s).1 =
          (modelId, errorRecord modelId msg) ∧
        (errorRecord modelId msg).error = some msg ∧
        (errorRecord modelId msg).hooks = [] ∧
        (runWorker configs gen judge basicEval modelId s).2.1 = s ∧
        (runWorker configs gen judge basicEval modelId s).2.2 =
          [sendError ("Failed to process " ++ modelId) msg (some modelId)]) ∧
    (∀ (configs : List ModelConfig) (modelId : String)
        (evaluations : List HookEvalEntry) (result : GenResult),
      (formatModelResult configs modelId evaluations result).error = none) ∧
    (∀ (configs : List ModelConfig) (gen : String → Except String GenResult)
        (judge : String → Except String JudgeResult)
        (basicEval : String → HookEvaluation) (selectedModels : List String)
        (s : TrackerState),
      (processModels configs gen judge basicEval selectedModels
        s).2.1.currentPhase = 2) := by
  refine ⟨?_, ?_, formatModelResult_error_none, processModels_currentPhase⟩
  · intro configs gen judge basicEval selectedModels s
    rw [processModels_results]
    simp [Function.comp_def]
  · intro configs gen judge basicEval modelId s msg herr
    unfold runWorker
    unfold processModel at herr ⊢
    rcases hv : validateModelConfig configs modelId with e | cfg
    · rw [hv] at herr
      simp only [] at herr
      injection herr with h
      subst h
      simp [errorRecord]
    · rcases hg : gen modelId with e | result
      · rw [hv] at herr
        simp only [] at herr
        rw [hg] at herr
        simp only [] at herr
        injection herr with h
        subst h
        simp [errorRecord]
      · rw [hv] at herr
        simp only [] at herr
        rw [hg] at herr
        simp at herr

/-- C3 counterexample to the claim as stated: for a failing worker the
entry carries the error and empty hooks, but the worker's WorkerStatus is
NOT marked `completed = true` — the flag is still false after
`processModels`. -/
theorem c3_counterexample :
    lookupModel (processModels UNIFIED_MODEL_CONFIGS genFail judge0 basic0
        ["gpt4o"] (initTracker ["gpt4o"] [])).2.1.modelProgress "gpt4o" =
      some { modelId := "gpt4o", hooksGenerated := false,
             hooksEvaluated := false, completed := false } ∧
    (processModels UNIFIED_MODEL_CONFIGS genFail judge0 basic0 ["gpt4o"]
        (initTracker ["gpt4o"] [])).1 =
      [("gpt4o", errorRecord "gpt4o" "API down")] := by
  constructor
  · have h1 : (processModels UNIFIED_MODEL_CONFIGS genFail judge0 basic0
        ["gpt4o"] (initTracker ["gpt4o"] [])).2.1 =
        (applyCall .allModelsComplete (initTracker ["gpt4o"] [])).1 := rfl
    rw [h1, applyCall_mp_allModelsComplete]
    rfl
  · rw [processModels_results]
    rfl

/-- C3 witness: the error-conversion part of the theorem applied to a
concrete failing worker. -/
theorem c3_worker_error_isolation_witness :
    ((processModel UNIFIED_MODEL_CONFIGS genFail judge0 basic0 "gpt4o"
        (initTracker ["gpt4o"] [])).1 = Except.error "API down") ∧
    (runWorker UNIFIED_MODEL_CONFIGS genFail judge0 basic0 "gpt4o"
        (initTracker ["gpt4o"] [])).1 =
      ("gpt4o", errorRecord "gpt4o" "API down") ∧
    (runWorker UNIFIED_MODEL_CONFIGS genFail judge0 basic0 "gpt4o"
        (initTracker ["gpt4o"] [])).2.1 = initTracker ["gpt4o"] [] :=
  ⟨rfl,
   (c3_worker_error_isolation.2.1 UNIFIED_MODEL_CONFIGS genFail judge0 basic0
      "gpt4o" (initTracker ["gpt4o"] []) "API down" rfl).1,
   (c3_worker_error_isolation.2.1 UNIFIED_MODEL_CONFIGS genFail judge0 basic0
      "gpt4o" (initTracker ["gpt4o"] []) "API down" rfl).2.2.2.1⟩

/-- The `PipelineResult` that `execute` uploads: the compiled payload of
the run. -/
def executePayload (configs : List ModelConfig)
    (gen : String → Except String GenResult)
    (judge : String → Except String JudgeResult)
    (basicEval : String → HookEvaluation)
    (selectedModels analysisOptions : List String) : PipelineResult :=
  compileResultsPayload configs selectedModels
    (processModels configs gen judge basicEval selectedModels
      (applyCall .initComplete (initTracker selectedModels
        analysisOptions)).1).1

/-- `execute` either ends with the single terminal `complete` event (when
the upload succeeds) or rejects with the upload's error; in both cases
every other event is a progress or per-worker error event. -/
theorem execute_shape (configs : List ModelConfig)
    (gen : String → Except String GenResult)
    (judge : String → Except String JudgeResult)
    (basicEval : String → HookEvaluation)
    (put : PipelineResult → Except String String)
    (selectedModels analysisOptions : List String) :
    (∃ url events,
      put (executePayload configs gen judge basicEval selectedModels
        analysisOptions) = .ok url ∧
      execute configs gen judge basicEval put selectedModels analysisOptions =
        (events ++ [sendComplete (.urlData url)], none) ∧
      ∀ e ∈ events, e.type = "progress" ∨ e.type = "error") ∨
    (∃ msg events,
      put (executePayload configs gen judge basicEval selectedModels
        analysisOptions) = .error msg ∧
      execute configs gen judge basicEval put selectedModels analysisOptions =
        (events, some msg) ∧
      ∀ e ∈ events, e.type = "progress" ∨ e.type = "error") := by
  have hev : ∀ e ∈ (applyCall .initComplete (initTracker selectedModels
        analysisOptions)).2 ++
      (processModels configs gen judge basicEval selectedModels
        (applyCall .initComplete (initTracker selectedModels
          analysisOptions)).1).2.2 ++
      (runAnalysis analysisOptions
        (processModels configs gen judge basicEval selectedModels
          (applyCall .initComplete (initTracker selectedModels
            analysisOptions)).1).2.1).2 ++
      (applyCall .pipelineComplete
        (runAnalysis analysisOptions
          (processModels configs gen judge basicEval selectedModels
            (applyCall .initComplete (initTracker selectedModels
              analysisOptions)).1).2.1).1).2,
      e.type = "progress" ∨ e.type = "error" := by
    intro e he
    simp only [List.mem_append] at he
    rcases he with ((he | he) | he) | he
    · exact Or.inl (applyCall_event_types _ _ e he)
    · exact processModels_event_types configs gen judge basicEval
        selectedModels _ e he
    · exact Or.inl (runAnalysis_event_types analysisOptions _ e he)
    · exact Or.inl (applyCall_event_types _ _ e he)
  rcases hput : put (executePayload configs gen judge basicEval
      selectedModels analysisOptions) with msg | url
  · refine Or.inr ⟨msg, _, rfl, ?_, hev⟩
    unfold execute
    simp only [compileResults]
    rw [show put (compileResultsPayload configs selectedModels
      (processModels configs gen judge basicEval selectedModels
        (applyCall .initComplete (initTracker selectedModels
          analysisOptions)).1).1) = .error msg from hput]
  · refine Or.inl ⟨url, _, rfl, ?_, hev⟩
    unfold execute
    simp only [compileResults]
    rw [show put (compileResultsPayload configs selectedModels
      (processModels configs gen judge basicEval selectedModels
        (applyCall .initComplete (initTracker selectedModels
          analysisOptions)).1).1) = .ok url from hput]

/-- An upload collaborator that always succeeds, used by witnesses. -/
def putOk : PipelineResult → Except String String :=
  fun _ => .ok "https://blob.local/results.json"

/-- An upload collaborator that always fails, used by witnesses. -/
def putFail : PipelineResult → Except String String :=
  fun _ => .error "upload failed"

/-- C5 (amended): for every run whose upload succeeds, the single terminal
message sent to the Sink has type `"complete"`, progress 100, and a data
field equal to `{url}` — the URL of the blob holding the compiled
`PipelineResult` — rather than the `PipelineResult` itself. -/
theorem c5_terminal_message (configs : List ModelConfig)
    (gen : String → Except String GenResult)
    (judge : String → Except String JudgeResult)
    (basicEval : String → HookEvaluation)
    (put : PipelineResult → Except String String)
    (selectedModels analysisOptions : List String) (url : String)
    (hput : put (executePayload configs gen judge basicEval selectedModels
      analysisOptions) = .ok url) :
    (execute configs gen judge basicEval put selectedModels
      analysisOptions).2 = none ∧
    (execute configs gen judge basicEval put selectedModels
      analysisOptions).1.getLast? = some (sendComplete (.urlData url)) ∧
    (sendComplete (.urlData url)).type = "complete" ∧
    (sendComplete (.urlData url)).progress = some 100 ∧
    (sendComplete (.urlData url)).data = some (.urlData url) := by
  rcases execute_shape configs gen judge basicEval put selectedModels
    analysisOptions with ⟨url', events, hput', hex, -⟩ | ⟨msg, events, hput', -, -⟩
  · rw [hput] at hput'
    injection hput' with h
    subst h
    rw [hex]
    exact ⟨rfl, by rw [List.getLast?_concat], rfl, rfl, rfl⟩
  · rw [hput] at hput'
    cases hput'

/-- C5 counterexample to the claim as stated: on a concrete run the
terminal event's data field is the `{url}` object of the uploaded blob, and
it is not the compiled `PipelineResult`. -/
theorem c5_counterexample :
    (execute UNIFIED_MODEL_CONFIGS genFail judge0 basic0 putOk ["gpt4o"]
      []).1.getLast? =
      some (sendComplete (.urlData "https://blob.local/results.json")) ∧
    (sendComplete
        (.urlData "https://blob.local/results.json")).data ≠
      some (.resultData (executePayload UNIFIED_MODEL_CONFIGS genFail judge0
        basic0 ["gpt4o"] [])) := by
  constructor
  · have h : (execute UNIFIED_MODEL_CONFIGS genFail judge0 basic0 putOk
        ["gpt4o"] []).1 =
        ((applyCall .initComplete (initTracker ["gpt4o"] [])).2 ++
          (processModels UNIFIED_MODEL_CONFIGS genFail judge0 basic0 ["gpt4o"]
            (applyCall .initComplete (initTracker ["gpt4o"] [])).1).2.2 ++
          (runAnalysis []
            (processModels UNIFIED_MODEL_CONFIGS genFail judge0 basic0
              ["gpt4o"]
              (applyCall .initComplete (initTracker ["gpt4o"] [])).1).2.1).2 ++
          (applyCall .pipelineComplete
            (runAnalysis []
              (processModels UNIFIED_MODEL_CONFIGS genFail judge0 basic0
                ["gpt4o"]
                (applyCall .initComplete
                  (initTracker ["gpt4o"] [])).1).2.1).1).2) ++
        [sendComplete (.urlData "https://blob.local/results.json")] := rfl
    rw [h, List.getLast?_concat]
  · intro h
    simp only [sendComplete, Option.some.injEq] at h
    cases h

/-- C5 witness: the terminal-message theorem applied to a concrete run with
a successful upload. -/
theorem c5_terminal_message_witness :
    (putOk (executePayload UNIFIED_MODEL_CONFIGS genFail judge0 basic0
      ["gpt4o"] []) = .ok "https://blob.local/results.json") ∧
    (execute UNIFIED_MODEL_CONFIGS genFail judge0 basic0 putOk ["gpt4o"]
      []).2 = none ∧
    (execute UNIFIED_MODEL_CONFIGS genFail judge0 basic0 putOk ["gpt4o"]
      []).1.getLast? =
      some (sendComplete (.urlData "https://blob.local/results.json")) :=
  ⟨rfl,
   (c5_terminal_message UNIFIED_MODEL_CONFIGS genFail judge0 basic0 putOk
     ["gpt4o"] [] "https://blob.local/results.json" rfl).1,
   (c5_terminal_message UNIFIED_MODEL_CONFIGS genFail judge0 basic0 putOk
     ["gpt4o"] [] "https://blob.local/results.json" rfl).2.1⟩

/-- C7: the Sink is closed exactly once on every exit path; a run whose
upload succeeds emits exactly one terminal `complete` event; a run that
fails catastrophically (upload rejection) emits no `complete` event but
ends with the terminal `"Pipeline failed"` error event and is still closed
once; and a run where every worker fails still produces one entry per
worker, all carrying errors, with the winner falling back to the first
selected model. -/
theorem c7_terminal_uniqueness :
    (∀ processor : List StreamEvent × Option String,
      (runStream processor).2 = 1) ∧
    (∀ (configs : List ModelConfig) (gen : String → Except String GenResult)
        (judge : String → Except String JudgeResult)
        (basicEval : String → HookEvaluation)
        (put : PipelineResult → Except String String)
        (selectedModels analysisOptions : List String),
      (execute configs gen judge basicEval put selectedModels
        analysisOptions).2 = none →
      ((runStream (execute configs gen judge basicEval put selectedModels
        analysisOptions)).1.filter
          (fun e => decide (e.type = "complete"))).length = 1) ∧
    (∀ (configs : List ModelConfig) (gen : String → Except String GenResult)
        (judge : String → Except String JudgeResult)
        (basicEval : String → HookEvaluation)
        (put : PipelineResult → Except String String)
        (selectedModels analysisOptions : List String) (msg : String),
      (execute configs gen judge basicEval put selectedModels
        analysisOptions).2 = some msg →
      ((runStream (execute configs gen judge basicEval put selectedModels
        analysisOptions)).1.filter
          (fun e => decide (e.type = "complete"))).length = 0 ∧
      (runStream (execute configs gen judge basicEval put selectedModels
        analysisOptions)).1.getLast? =
        some (sendError "Pipeline failed" msg none)) ∧
    (∀ (configs : List ModelConfig) (gen : String → Except String GenResult)
        (judge : String → Except String JudgeResult)
        (basicEval : String → HookEvaluation) (selectedModels : List String)
        (s : TrackerState),
      (∀ m ∈ selectedModels, ∃ msg, msg ≠ "" ∧
        workerOutcome configs gen judge basicEval m = errorRecord m msg) →
      (processModels configs gen judge basicEval selectedModels s).1.length =
          selectedModels.length ∧
      (∀ p ∈ (processModels configs gen judge basicEval selectedModels s).1,
        jsTruthyStr p.2.error = true) ∧
      (compileResultsPayload configs selectedModels
        (processModels configs gen judge basicEval selectedModels
          s).1).comparison.winner = selectedModels[0]?) := by
  refine ⟨?_, ?_, ?_, ?_⟩
  · rintro ⟨evs, _ | e⟩ <;> rfl
  · intro configs gen judge basicEval put selectedModels analysisOptions h
    rcases execute_shape configs gen judge basicEval put selectedModels
      analysisOptions with ⟨url, events, -, hex, hty⟩ |
        ⟨msg, events, -, hex, -⟩
    · rw [hex]
      simp only [runStream, List.filter_append]
      have h1 : events.filter (fun e => decide (e.type = "complete")) = [] := by
        rw [List.filter_eq_nil_iff]
        intro e he
        rcases hty e he with h' | h' <;> simp [h']
      rw [h1]
      rfl
    · rw [hex] at h
      cases h
  · intro configs gen judge basicEval put selectedModels analysisOptions msg h
    rcases execute_shape configs gen judge basicEval put selectedModels
      analysisOptions with ⟨url, events, -, hex, -⟩ |
        ⟨msg', events, -, hex, hty⟩
    · rw [hex] at h
      cases h
    · rw [hex] at h
      injection h with h'
      subst h'
      rw [hex]
      constructor
      · simp only [runStream, List.filter_append]
        have h1 : events.filter (fun e => decide (e.type = "complete")) = [] := by
          rw [List.filter_eq_nil_iff]
          intro e he
          rcases hty e he with h' | h' <;> simp [h']
        rw [h1]
        rfl
      · simp only [runStream]
        rw [List.getLast?_concat]
  · intro configs gen judge basicEval selectedModels s hfail
    rw [processModels_results]
    refine ⟨by simp, ?_, ?_⟩
    · intro p hp
      rcases List.mem_map.mp hp with ⟨m, hm, rfl⟩
      rcases hfail m hm with ⟨msg, hmsg, hout⟩
      simp [hout, errorRecord, jsTruthyStr, hmsg]
    · have hsucc : successScores (selectedModels.map
          (fun m => (m, workerOutcome configs gen judge basicEval m))) = [] := by
        unfold successScores
        rw [show (selectedModels.map
            (fun m => (m, workerOutcome configs gen judge basicEval m))).filter
            (fun p => ¬ jsTruthyStr p.2.error) = [] from ?_]
        · rfl
        · rw [List.filter_eq_nil_iff]
          intro p hp
          rcases List.mem_map.mp hp with ⟨m, hm, rfl⟩
          rcases hfail m hm with ⟨msg, hmsg, hout⟩
          simp [hout, errorRecord, jsTruthyStr, hmsg]
      simp only [compileResultsPayload, hsucc]
      simp [sortScores, jsOrStr]

/-- C7 witness: the terminal-uniqueness theorem applied to concrete runs —
a successful upload, a failing upload, and an all-workers-fail selection. -/
theorem c7_terminal_uniqueness_witness :
    ((execute UNIFIED_MODEL_CONFIGS genFail judge0 basic0 putOk ["gpt4o"]
      []).2 = none ∧
     ((runStream (execute UNIFIED_MODEL_CONFIGS genFail judge0 basic0 putOk
       ["gpt4o"] [])).1.filter
         (fun e => decide (e.type = "complete"))).length = 1) ∧
    ((execute UNIFIED_MODEL_CONFIGS genFail judge0 basic0 putFail ["gpt4o"]
      []).2 = some "upload failed" ∧
     (runStream (execute UNIFIED_MODEL_CONFIGS genFail judge0 basic0 putFail
       ["gpt4o"] [])).1.getLast? =
       some (sendError "Pipeline failed" "upload failed" none)) ∧
    (compileResultsPayload UNIFIED_MODEL_CONFIGS ["gpt4o"]
      (processModels UNIFIED_MODEL_CONFIGS genFail judge0 basic0 ["gpt4o"]
        (initTracker ["gpt4o"] [])).1).comparison.winner = some "gpt4o" :=
  ⟨⟨rfl,
    c7_terminal_uniqueness.2.1 UNIFIED_MODEL_CONFIGS genFail judge0 basic0
      putOk ["gpt4o"] [] rfl⟩,
   ⟨rfl,
    (c7_terminal_uniqueness.2.2.1 UNIFIED_MODEL_CONFIGS genFail judge0 basic0
      putFail ["gpt4o"] [] "upload failed" rfl).2⟩,
   (c7_terminal_uniqueness.2.2.2 UNIFIED_MODEL_CONFIGS genFail judge0 basic0
      ["gpt4o"] (initTracker ["gpt4o"] [])
      (by
        intro m hm
        simp only [List.mem_cons, List.not_mem_nil, or_false] at hm
        subst hm
        exact ⟨"API down", by decide, rfl⟩)).2.2⟩
